import Mathlib

/-!
# Verification of `ts-code-analyzer`

A shallow embedding, in Lean 4, of the core of the `ts-code-analyzer`
repository:

* `src/libs/csv-parser.ts` — the delimited-text (CSV) `parse` / `stringify`
  pair (section `CSV` below);
* `src/ts-scan.ts` — the module resolver (`findFile`) and the memoized
  import-graph scanner (`scanTypescriptAsync` / `scanAsync`);
* `src/ts-component.ts` — the ancestor-path pattern matcher (`Parser.traverse`
  and its rule table) and the attention-list post-processing.

Strings are modelled as `List Char` (JavaScript strings are sequences of
code units; the sources only ever index, compare and concatenate them).
External collaborators (the Node `fs`/`path` APIs, the TypeScript compiler's
`preProcessFile`/`createSourceFile`) are modelled as explicit parameters:
an abstract file-system/path environment for the resolver and scanner, and
concrete flattened syntax-tree inputs (the output shape of the repository's
`scanAllChildren` on TypeScript's parse trees) for the pattern matcher.
All definitions follow the TypeScript sources statement by statement.
-/

namespace CSV

/-- `CSVItem` of `src/libs/csv-parser.ts`: `{ value: string; size?: number;
quat?: boolean }` (in the code `quat` actually holds a string, `''` or `'"'`,
and is only ever used for truthiness; we keep it as the string).  A missing
`size` / `quat` is `none` / `[]` (both falsy in the source). -/
structure CSVItem where
  value : List Char
  quat : List Char
  size : Option Nat
deriving DecidableEq, Repr

/-- The newline test `src[i] === '\n' || src[i] === '\r'` of `parse`. -/
def isNL (c : Char) : Bool := c = '\n' || c = '\r'

/-- The control position inside `parse`'s loops.

`parse` (lines 16–69 of `src/libs/csv-parser.ts`) is an outer `do … while`
over the input; an unquoted field is consumed by an inner `do … while`
(lines 47–66) whose handling of `,`, newlines, ordinary characters and end
of input is character-for-character the same as the outer loop's (field
push / row push with newline-pair skip / append to `val` / final push) —
the two differ only at `"`, which opens a quoted section at the top of the
outer loop but is an ordinary character inside an unquoted field.  A quoted
section (lines 30–45) is a third loop.  `parseGo` below therefore carries
one of three modes. -/
inductive PMode where
  | outer
  | infield
  | quoted
deriving DecidableEq, Repr

/-- The loops of `parse` (lines 16–73), as one structural recursion over the
remaining input; `val`/`quat` are the current field accumulators, `col` the
fields of the current row, `row` the completed rows.

Faithfulness notes, keyed to the source:
* `,` (outer line 17, inner line 48) pushes `{value: val, quat}` and resets;
  the inner loop's `break` plus the outer `i++` land at the character after
  the comma with the outer loop re-entered — mode `outer`.
* a newline (outer line 21, inner line 53) additionally pushes the row and
  skips **one** immediately following newline character (`\n` or `\r`, lines
  27–29 and 59–61).
* `"` at the top of the outer loop (line 30) enters the quoted loop after
  `i++`.  The quoted loop is a `do … while`: if the opening quote was the
  last input character, its first iteration reads `src[i]` out of range and
  `val += src[i]` appends the *string* `"undefined"` (a JavaScript quirk we
  reproduce literally); the loop then exits, `quat = '"'` is set, and the
  outer loop ends, pushing the field.
* inside the quoted loop, `""` appends `"` and continues (line 34; its guard
  `i < src.length - 1` is redundant, being implied by `src[i+1] === '"'`);
  a lone `"` closes the section (line 38) — the `break` leaves `i` at the
  closing quote and the outer `i++` skips it, re-entering the outer loop
  with `quat = '"'`; any other character is appended; running out of input
  ends the section the same way (minus the skipped quote).
* end of input (both loop conditions) falls through to lines 70–73:
  `col.push({value: val, quat}); row.push(col)` (`col` is never empty
  there, having just been pushed to).

The source dispatches on the current character with `if`/`else if`
comparisons; the definition mirrors that with `if` tests on the head
character (and on the lookahead character where the source reads
`src[i + 1]`), recursing on the structurally smaller remainder. -/
def parseGo : PMode → List Char → List Char → List Char → List CSVItem →
    List (List CSVItem) → List (List CSVItem)
  | mode, [], val, quat, col, row =>
      row ++ [col ++ [⟨val, if mode = PMode.quoted then ['"'] else quat, none⟩]]
  | mode, c :: rest, val, quat, col, row =>
      if mode = PMode.quoted then
        if c = '"' then
          match rest with
          | [] => row ++ [col ++ [⟨val, ['"'], none⟩]]
          | c2 :: rest2 =>
            if c2 = '"' then parseGo .quoted rest2 (val ++ ['"']) quat col row
            else parseGo .outer (c2 :: rest2) val ['"'] col row
        else parseGo .quoted rest (val ++ [c]) quat col row
      else
        if c = ',' then parseGo .outer rest [] [] (col ++ [⟨val, quat, none⟩]) row
        else if isNL c then
          match rest with
          | [] => (row ++ [col ++ [⟨val, quat, none⟩]]) ++ [[⟨[], [], none⟩]]
          | c2 :: rest2 =>
            if isNL c2 then
              parseGo .outer rest2 [] [] [] (row ++ [col ++ [⟨val, quat, none⟩]])
            else parseGo .outer (c2 :: rest2) [] [] [] (row ++ [col ++ [⟨val, quat, none⟩]])
        else if c = '"' then
          if mode = PMode.outer then
            match rest with
            | [] => row ++ [col ++ [⟨val ++ ['u','n','d','e','f','i','n','e','d'], ['"'], none⟩]]
            | c2 :: rest2 => parseGo .quoted (c2 :: rest2) val quat col row
          else parseGo .infield rest (val ++ ['"']) quat col row
        else parseGo .infield rest (val ++ [c]) quat col row

/-- `parse` of `src/libs/csv-parser.ts`.  An empty input returns a single
row holding one item `{ value: '' }` (its absent `quat` is falsy, like `''`). -/
def parse (src : List Char) : List (List CSVItem) :=
  if src.length ≤ 0 then [[⟨[], [], none⟩]] else parseGo .outer src [] [] [] []

/-- `indentSpace` of `src/libs/csv-parser.ts`:
`${' '.repeat(size)}${str}.slice(-Math.max(size, str.length))`. -/
def indentSpace (str : List Char) (size : Nat) : List Char :=
  let s := List.replicate size ' ' ++ str
  s.drop (s.length - max size str.length)

/-- `col.value.replace(/"/g, '""')` in `stringify`. -/
def escapeQuotes : List Char → List Char
  | [] => []
  | c :: rest =>
      if c = '"' then '"' :: '"' :: escapeQuotes rest else c :: escapeQuotes rest

/-- The quoting condition of `stringify` (lines 92–97): the value contains a
comma, a space, a quote, or a newline. -/
def quoteNeeded (v : List Char) : Bool :=
  v.contains ',' || v.contains ' ' || v.contains '"' || v.contains '\n'

/-- One cell of `stringify` output (lines 92–103): values needing quoting are
wrapped in quotes with internal quotes doubled; otherwise the cell is quoted
iff the original `quat` flag is truthy (nonempty). -/
def renderField (f : CSVItem) : List Char :=
  if quoteNeeded f.value then
    '"' :: (indentSpace (escapeQuotes f.value) (f.size.getD 0) ++ ['"'])
  else
    (if f.quat = [] then [] else ['"']) ++ indentSpace f.value (f.size.getD 0) ++
      (if f.quat = [] then [] else ['"'])

/-- One row of `stringify` output: cells joined by the delimiter `','`. -/
def renderRow (r : List CSVItem) : List Char :=
  List.intercalate [','] (r.map renderField)

/-- `stringify` of `src/libs/csv-parser.ts`: rows joined by `'\n'`. -/
def stringify (rows : List (List CSVItem)) : List Char :=
  List.intercalate ['\n'] (rows.map renderRow)

/-- The semantic content of a parse result: row-by-row field values,
quoting flags disregarded. -/
def csvValues (rows : List (List CSVItem)) : List (List (List Char)) :=
  rows.map (fun r => r.map (fun f => f.value))

/-- **C8.** `parse` applied to the empty string returns exactly one row
containing exactly one field whose value is the empty string. -/
theorem C8_parse_empty_is_single_empty_field :
    parse [] = [[⟨[], [], none⟩]] := by decide

/-- **C7, counterexample.**  `stringify (parse s)` is *not* semantically
equivalent to `s` for every `s`: for `s = "\n\n\n"`, `parse s` has three
rows (each a single empty field) but `parse (stringify (parse s))` has only
two — the round trip loses the middle empty row, because `stringify` prints
an interior empty row as two adjacent newlines, which `parse`'s
newline-pair skip then merges into a single row boundary. -/
theorem C7_counterexample_three_newlines :
    csvValues (parse (stringify (parse ['\n', '\n', '\n']))) ≠
      csvValues (parse ['\n', '\n', '\n']) := by decide

theorem parseGo_nil (m : PMode) (val quat col row) :
    parseGo m [] val quat col row =
      row ++ [col ++ [⟨val, if m = PMode.quoted then ['"'] else quat, none⟩]] := rfl

theorem parseGo_plain (m : PMode) (hm : m ≠ PMode.quoted) (c : Char) (rest val quat col row)
    (hc1 : ¬ c = ',') (hc2 : isNL c = false) (hc3 : ¬ c = '"') :
    parseGo m (c :: rest) val quat col row = parseGo .infield rest (val ++ [c]) quat col row := by
  cases rest with
  | nil => simp only [parseGo, if_neg hm, if_neg hc1, hc2, if_neg hc3, Bool.false_eq_true, if_false]
  | cons c2 rest2 =>
    simp only [parseGo, if_neg hm, if_neg hc1, hc2, if_neg hc3, Bool.false_eq_true, if_false]

theorem parseGo_infield_step (c : Char) (rest val quat col row)
    (hc1 : ¬ c = ',') (hc2 : isNL c = false) :
    parseGo .infield (c :: rest) val quat col row =
      parseGo .infield rest (val ++ [c]) quat col row := by
  by_cases hc3 : c = '"'
  · subst hc3
    cases rest with
    | nil => rfl
    | cons c2 rest2 => rfl
  · exact parseGo_plain _ (by simp) c rest val quat col row hc1 hc2 hc3

theorem parseGo_comma (m : PMode) (hm : m ≠ PMode.quoted) (rest val quat col row) :
    parseGo m (',' :: rest) val quat col row =
      parseGo .outer rest [] [] (col ++ [⟨val, quat, none⟩]) row := by
  cases rest with
  | nil => simp only [parseGo, if_neg hm, if_pos rfl, if_true]
  | cons c2 rest2 => simp only [parseGo, if_neg hm, if_pos rfl, if_true]

def afterNL (t : List Char) (row : List (List CSVItem)) : List (List CSVItem) :=
  match t with
  | [] => row ++ [[⟨[], [], none⟩]]
  | c :: t' => if isNL c then parseGo .outer t' [] [] [] row
      else parseGo .outer (c :: t') [] [] [] row

theorem parseGo_nl (m : PMode) (hm : m ≠ PMode.quoted) (c : Char) (hc : isNL c = true)
    (rest val quat col row) :
    parseGo m (c :: rest) val quat col row =
      afterNL rest (row ++ [col ++ [⟨val, quat, none⟩]]) := by
  have hcc : ¬ c = ',' := by
    rintro rfl
    simp [isNL] at hc
  cases rest with
  | nil => simp only [parseGo, if_neg hm, if_neg hcc, hc, if_true, afterNL]
  | cons c2 t' => simp only [parseGo, if_neg hm, if_neg hcc, hc, if_true, afterNL]

theorem parseGo_outer_quote (c2 : Char) (rest2 val quat col row) :
    parseGo .outer ('"' :: c2 :: rest2) val quat col row =
      parseGo .quoted (c2 :: rest2) val quat col row := rfl

theorem parseGo_quoted_qq (rest val quat col row) :
    parseGo .quoted ('"' :: '"' :: rest) val quat col row =
      parseGo .quoted rest (val ++ ['"']) quat col row := rfl

theorem parseGo_quoted_close (c2 : Char) (hc2 : ¬ c2 = '"') (rest2 val quat col row) :
    parseGo .quoted ('"' :: c2 :: rest2) val quat col row =
      parseGo .outer (c2 :: rest2) val ['"'] col row := by
  simp only [parseGo, if_pos rfl, if_neg hc2, if_true]


theorem parseGo_quoted_close_nil (val quat col row) :
    parseGo .quoted ['"'] val quat col row = row ++ [col ++ [⟨val, ['"'], none⟩]] := rfl

theorem parseGo_quoted_plain (c : Char) (hc : ¬ c = '"') (rest val quat col row) :
    parseGo .quoted (c :: rest) val quat col row =
      parseGo .quoted rest (val ++ [c]) quat col row := by
  cases rest with
  | nil => simp only [parseGo, if_pos rfl, if_neg hc, if_true]
  | cons c2 rest2 => simp only [parseGo, if_pos rfl, if_neg hc, if_true]

theorem parseGo_mode_irrel (input : List Char) (hh : input.head? ≠ some '"')
    (val quat col row) :
    parseGo .outer input val quat col row = parseGo .infield input val quat col row := by
  cases input with
  | nil => rfl
  | cons c rest =>
    have hc : ¬ c = '"' := by
      rintro rfl
      simp at hh
    by_cases h1 : c = ','
    · subst h1
      rw [parseGo_comma _ (by simp), parseGo_comma _ (by simp)]
    · by_cases h2 : isNL c
      · rw [parseGo_nl _ (by simp) c h2, parseGo_nl _ (by simp) c h2]
      · rw [parseGo_plain _ (by simp) c rest val quat col row h1 (by simpa using h2) hc,
          parseGo_plain _ (by simp) c rest val quat col row h1 (by simpa using h2) hc]

def noSpecial (v : List Char) : Bool :=
  v.all (fun c => !(c == ',') && !(c == '\n') && !(c == '\r'))

def wfField (f : CSVItem) : Bool :=
  f.size.isNone && (!(f.quat.isEmpty) || noSpecial f.value)

def wfRow (r : List CSVItem) : Bool := !(r.isEmpty) && r.all wfField

def reparsedQuat (f : CSVItem) : List Char :=
  if quoteNeeded f.value || !(f.quat.isEmpty) then ['"'] else []

def reparsedField (f : CSVItem) : CSVItem := ⟨f.value, reparsedQuat f, none⟩

def reparsedRow (r : List CSVItem) : List CSVItem := r.map reparsedField

theorem indentSpace_zero (v : List Char) : indentSpace v 0 = v := by
  simp [indentSpace]

theorem escapeQuotes_cons_quote (rest : List Char) :
    escapeQuotes ('"' :: rest) = '"' :: '"' :: escapeQuotes rest := by
  simp [escapeQuotes]

theorem escapeQuotes_cons (c : Char) (hc : ¬ c = '"') (rest : List Char) :
    escapeQuotes (c :: rest) = c :: escapeQuotes rest := by
  simp [escapeQuotes, hc]

theorem escapeQuotes_eq_self (v : List Char) (h : v.contains '"' = false) :
    escapeQuotes v = v := by
  induction v with
  | nil => rfl
  | cons c rest ih =>
    have hc : ¬ c = '"' := by
      intro hc
      subst hc
      simp [List.contains_cons] at h
    have hrest : rest.contains '"' = false := by
      simp [List.contains_cons] at h
      simp [h.2]
    simp only [escapeQuotes, if_neg hc, ih hrest]

theorem intercalate_one {α : Type} (s a : List α) : List.intercalate s [a] = a := by
  simp [List.intercalate]

theorem intercalate_cons_cons {α : Type} (s a b : List α) (l : List (List α)) :
    List.intercalate s (a :: b :: l) = a ++ s ++ List.intercalate s (b :: l) := by
  simp [List.intercalate, List.append_assoc]

theorem not_mem_of_contains_false {v : List Char} {a : Char}
    (h : v.contains a = false) : a ∉ v := by
  intro hm
  have h2 : v.elem a = true := List.elem_iff.mpr hm
  rw [show v.contains a = v.elem a from rfl, h2] at h
  cases h

theorem quoted_consume (v : List Char) : ∀ val quat col row (rest : List Char),
    rest.head? ≠ some '"' →
    parseGo .quoted (escapeQuotes v ++ '"' :: rest) val quat col row =
      parseGo .outer rest (val ++ v) ['"'] col row := by
  induction v with
  | nil =>
    intro val quat col row rest hrest
    cases rest with
    | nil => simp [escapeQuotes, parseGo_quoted_close_nil, parseGo_nil]
    | cons c2 t =>
      have hc2 : ¬ c2 = '"' := by simpa using hrest
      simp only [escapeQuotes, List.nil_append, parseGo_quoted_close c2 hc2, List.append_nil]
  | cons c v' ih =>
    intro val quat col row rest hrest
    by_cases hc : c = '"'
    · subst hc
      rw [escapeQuotes_cons_quote v']
      simp only [List.cons_append, parseGo_quoted_qq]
      rw [ih (val ++ ['"']) quat col row rest hrest]
      simp
    · rw [escapeQuotes_cons c hc v']
      simp only [List.cons_append, parseGo_quoted_plain c hc]
      rw [ih (val ++ [c]) quat col row rest hrest]
      simp

theorem infield_run (v : List Char) (hv : ∀ c ∈ v, ¬ c = ',' ∧ isNL c = false) :
    ∀ val quat col row (rest : List Char),
    parseGo .infield (v ++ rest) val quat col row =
      parseGo .infield rest (val ++ v) quat col row := by
  induction v with
  | nil => intro val quat col row rest; simp
  | cons c v' ih =>
    intro val quat col row rest
    have hc := hv c (List.mem_cons_self c v')
    rw [List.cons_append, parseGo_infield_step c (v' ++ rest) val quat col row hc.1 hc.2,
      ih (fun d hd => hv d (List.mem_cons_of_mem _ hd)) (val ++ [c]) quat col row rest]
    simp

theorem outer_run (v : List Char) (hv : ∀ c ∈ v, ¬ c = ',' ∧ isNL c = false ∧ ¬ c = '"')
    (rest : List Char) (hrest : rest.head? ≠ some '"') (val quat col row) :
    parseGo .outer (v ++ rest) val quat col row =
      parseGo .infield rest (val ++ v) quat col row := by
  cases v with
  | nil => simpa using parseGo_mode_irrel rest hrest val quat col row
  | cons c v' =>
    have hc := hv c (List.mem_cons_self c v')
    rw [List.cons_append, parseGo_plain .outer (by simp) c (v' ++ rest) val quat col row
        hc.1 hc.2.1 hc.2.2,
      infield_run v' (fun d hd => ⟨(hv d (List.mem_cons_of_mem _ hd)).1,
        (hv d (List.mem_cons_of_mem _ hd)).2.1⟩) (val ++ [c]) quat col row rest]
    simp

theorem parseGo_outer_quote' (input : List Char) (h : input ≠ []) (val quat col row) :
    parseGo .outer ('"' :: input) val quat col row =
      parseGo .quoted input val quat col row := by
  cases input with
  | nil => exact absurd rfl h
  | cons c2 rest2 => exact parseGo_outer_quote c2 rest2 val quat col row

theorem field_consume (f : CSVItem) (hwf : wfField f = true) (rest : List Char)
    (hrest : rest.head? = none ∨ rest.head? = some ',' ∨ rest.head? = some '\n')
    (col row) :
    parseGo .outer (renderField f ++ rest) [] [] col row =
      parseGo .infield rest f.value (reparsedQuat f) col row := by
  have hsz : f.size = none := by
    have h1 := hwf
    simp only [wfField, Bool.and_eq_true, Option.isNone_iff_eq_none] at h1
    exact h1.1
  have hrq : rest.head? ≠ some '"' := by
    rcases hrest with h | h | h <;> simp [h]
  by_cases hqn : quoteNeeded f.value = true
  · rw [renderField, if_pos hqn, hsz]
    simp only [Option.getD_none, indentSpace_zero, List.cons_append, List.append_assoc,
      List.singleton_append, List.nil_append]
    rw [parseGo_outer_quote' _ (by simp) [] [] col row,
      quoted_consume f.value [] [] col row rest hrq, List.nil_append,
      parseGo_mode_irrel rest hrq]
    simp [reparsedQuat, hqn]
  · rw [renderField, if_neg hqn, hsz]
    have hqn4 : f.value.contains ',' = false ∧ f.value.contains ' ' = false ∧
        f.value.contains '"' = false ∧ f.value.contains '\n' = false := by
      simp only [quoteNeeded, Bool.or_eq_true, not_or, Bool.not_eq_true] at hqn
      exact ⟨hqn.1.1.1, hqn.1.1.2, hqn.1.2, hqn.2⟩
    by_cases hq : f.quat = []
    · rw [if_pos hq]
      simp only [Option.getD_none, indentSpace_zero, List.nil_append, List.append_nil]
      have hns : noSpecial f.value = true := by
        have h1 := hwf
        simp only [wfField, Bool.and_eq_true, Bool.or_eq_true, Bool.not_eq_true'] at h1
        rcases h1.2 with h2 | h2
        · rw [hq] at h2
          cases h2
        · exact h2
      have hplain : ∀ c ∈ f.value, ¬ c = ',' ∧ isNL c = false ∧ ¬ c = '"' := by
        intro c hcm
        have hsp := (List.all_eq_true.mp hns) c hcm
        simp only [Bool.and_eq_true, Bool.not_eq_true', beq_eq_false_iff_ne, ne_eq] at hsp
        have h3 : ¬ c = '"' := fun h =>
          (not_mem_of_contains_false hqn4.2.2.1) (h ▸ hcm)
        exact ⟨hsp.1.1, by simp [isNL, hsp.1.2, hsp.2], h3⟩
      rw [outer_run f.value hplain rest hrq [] [] col row, List.nil_append]
      have hrqf : reparsedQuat f = [] := by
        simp [reparsedQuat, hqn, hq]
      rw [hrqf]
    · rw [if_neg hq]
      simp only [Option.getD_none, indentSpace_zero]
      have hthis := quoted_consume f.value [] [] col row rest hrq
      rw [escapeQuotes_eq_self f.value hqn4.2.2.1, List.nil_append] at hthis
      have hshape : (['"'] ++ f.value ++ ['"']) ++ rest = '"' :: (f.value ++ '"' :: rest) := by
        simp
      rw [hshape, parseGo_outer_quote' (f.value ++ '"' :: rest) (by simp) [] [] col row,
        hthis, parseGo_mode_irrel rest hrq]
      have hrqf : reparsedQuat f = ['"'] := by
        simp [reparsedQuat, hq]
      rw [hrqf]

theorem row_consume : ∀ (fs : List CSVItem) (hne : fs ≠ []) (_hwf : fs.all wfField = true)
    (rest : List Char)
    (_hrest : rest.head? = none ∨ rest.head? = some '\n') (col : List CSVItem)
    (row : List (List CSVItem)),
    parseGo .outer (renderRow fs ++ rest) [] [] col row =
      parseGo .infield rest (fs.getLast hne).value (reparsedQuat (fs.getLast hne))
        (col ++ reparsedRow fs.dropLast) row := by
  intro fs
  induction fs with
  | nil => intro hne; exact absurd rfl hne
  | cons f fs' ih =>
    intro hne hwf rest hrest col row
    have hwf1 : wfField f = true := by
      simp only [List.all_cons, Bool.and_eq_true] at hwf
      exact hwf.1
    cases fs' with
    | nil =>
      rw [show renderRow [f] = renderField f from by
          simp [renderRow, intercalate_one],
        field_consume f hwf1 rest (by rcases hrest with h | h <;> simp [h]) col row]
      simp [reparsedRow]
    | cons f' fs'' =>
      have hshape : renderRow (f :: f' :: fs'') ++ rest =
          renderField f ++ (',' :: (renderRow (f' :: fs'') ++ rest)) := by
        simp only [renderRow, List.map_cons, intercalate_cons_cons]
        simp [List.append_assoc]
      have hne2 : (f' :: fs'') ≠ [] := List.cons_ne_nil f' fs''
      have hwf2 : (f' :: fs'').all wfField = true := by
        simp only [List.all_cons, Bool.and_eq_true] at hwf ⊢
        exact hwf.2
      rw [hshape, field_consume f hwf1 (',' :: (renderRow (f' :: fs'') ++ rest))
          (Or.inr (Or.inl rfl)) col row,
        parseGo_comma .infield (by simp) _ _ _ _ _]
      refine (ih hne2 hwf2 rest hrest
        (col ++ [⟨f.value, reparsedQuat f, none⟩]) row).trans ?_
      have hlast : (f :: f' :: fs'').getLast hne = (f' :: fs'').getLast hne2 :=
        List.getLast_cons hne2
      rw [hlast]
      congr 1
      simp [reparsedRow, reparsedField, List.dropLast_cons₂, List.append_assoc]

theorem row_consume_end (fs : List CSVItem) (hne : fs ≠ []) (hwf : fs.all wfField = true)
    (col : List CSVItem) (row : List (List CSVItem)) :
    parseGo .outer (renderRow fs) [] [] col row = row ++ [col ++ reparsedRow fs] := by
  have h := row_consume fs hne hwf [] (Or.inl rfl) col row
  rw [List.append_nil] at h
  rw [h, parseGo_nil]
  have hif : (if PMode.infield = PMode.quoted then ['"']
      else reparsedQuat (fs.getLast hne)) = reparsedQuat (fs.getLast hne) := by
    simp
  rw [hif]
  congr 1
  rw [show (⟨(fs.getLast hne).value, reparsedQuat (fs.getLast hne), none⟩ : CSVItem) =
      reparsedField (fs.getLast hne) from rfl]
  rw [List.append_assoc]
  congr 1
  rw [show [reparsedField (fs.getLast hne)] = reparsedRow [fs.getLast hne] from rfl,
    show reparsedRow fs.dropLast ++ reparsedRow [fs.getLast hne] =
      reparsedRow (fs.dropLast ++ [fs.getLast hne]) from by simp [reparsedRow],
    List.dropLast_concat_getLast hne]

theorem row_consume_nl (fs : List CSVItem) (hne : fs ≠ []) (hwf : fs.all wfField = true)
    (t : List Char) (col : List CSVItem) (row : List (List CSVItem)) :
    parseGo .outer (renderRow fs ++ '\n' :: t) [] [] col row =
      afterNL t (row ++ [col ++ reparsedRow fs]) := by
  rw [row_consume fs hne hwf ('\n' :: t) (Or.inr rfl) col row,
    parseGo_nl .infield (by simp) '\n' (by simp [isNL]) t _ _ _ _]
  congr 2
  rw [show (⟨(fs.getLast hne).value, reparsedQuat (fs.getLast hne), none⟩ : CSVItem) =
      reparsedField (fs.getLast hne) from rfl]
  rw [List.append_assoc]
  congr 1
  rw [show [reparsedField (fs.getLast hne)] = reparsedRow [fs.getLast hne] from rfl,
    show reparsedRow fs.dropLast ++ reparsedRow [fs.getLast hne] =
      reparsedRow (fs.dropLast ++ [fs.getLast hne]) from by simp [reparsedRow],
    List.dropLast_concat_getLast hne]

theorem renderField_eq_nil (f : CSVItem) (hsz : f.size = none)
    (h : renderField f = []) : f.value = [] ∧ f.quat = [] := by
  by_cases hqn : quoteNeeded f.value = true
  · rw [renderField, if_pos hqn] at h
    cases h
  · rw [renderField, if_neg hqn, hsz] at h
    by_cases hq : f.quat = []
    · rw [if_pos hq] at h
      simp only [Option.getD_none, indentSpace_zero, List.nil_append, List.append_nil] at h
      exact ⟨h, hq⟩
    · rw [if_neg hq] at h
      simp only [Option.getD_none, indentSpace_zero] at h
      cases h

theorem renderRow_ne_nil_of_two (f g : CSVItem) (fs : List CSVItem) :
    renderRow (f :: g :: fs) ≠ [] := by
  rw [renderRow, List.map_cons, List.map_cons, intercalate_cons_cons]
  intro h
  rw [List.append_assoc, List.append_eq_nil] at h
  cases h.2

theorem renderRow_eq_nil (r : List CSVItem) (hwf : wfRow r = true)
    (h : renderRow r = []) :
    reparsedRow r = [⟨[], [], none⟩] ∧ r.map (fun f => f.value) = [[]] := by
  cases r with
  | nil =>
    simp [wfRow] at hwf
  | cons f fs =>
    cases fs with
    | nil =>
      rw [renderRow, List.map_cons, List.map_nil, intercalate_one] at h
      have hsz : f.size = none := by
        simp only [wfRow, wfField, List.all_cons, Bool.and_eq_true,
          Option.isNone_iff_eq_none] at hwf
        exact hwf.2.1.1
      obtain ⟨hv, hq⟩ := renderField_eq_nil f hsz h
      constructor
      · simp [reparsedRow, reparsedField, reparsedQuat, hv, hq, quoteNeeded]
      · simp [hv]
    | cons g fs' => exact absurd h (renderRow_ne_nil_of_two f g fs')

theorem renderField_head (f : CSVItem) (hwf : wfField f = true) (c : Char)
    (h : (renderField f).head? = some c) : isNL c = false := by
  have hsz : f.size = none := by
    simp only [wfField, Bool.and_eq_true, Option.isNone_iff_eq_none] at hwf
    exact hwf.1
  by_cases hqn : quoteNeeded f.value = true
  · rw [renderField, if_pos hqn] at h
    simp only [List.head?_cons, Option.some.injEq] at h
    subst h
    rfl
  · rw [renderField, if_neg hqn, hsz] at h
    by_cases hq : f.quat = []
    · rw [if_pos hq] at h
      simp only [Option.getD_none, indentSpace_zero, List.nil_append, List.append_nil] at h
      have hns : noSpecial f.value = true := by
        simp only [wfField, Bool.and_eq_true, Bool.or_eq_true, Bool.not_eq_true'] at hwf
        rcases hwf.2 with h2 | h2
        · rw [hq] at h2
          cases h2
        · exact h2
      cases hv : f.value with
      | nil =>
        rw [hv] at h
        cases h
      | cons c0 v' =>
        rw [hv] at h
        simp only [List.head?_cons, Option.some.injEq] at h
        subst h
        have hsp := (List.all_eq_true.mp hns) c0 (by rw [hv]; exact List.mem_cons_self _ _)
        simp only [Bool.and_eq_true, Bool.not_eq_true', beq_eq_false_iff_ne, ne_eq] at hsp
        simp [isNL, hsp.1.2, hsp.2]
    · rw [if_neg hq] at h
      simp only [Option.getD_none, indentSpace_zero] at h
      simp only [List.cons_append, List.head?_cons, Option.some.injEq] at h
      subst h
      rfl

theorem renderRow_head (r : List CSVItem) (hwf : wfRow r = true) (c : Char)
    (h : (renderRow r).head? = some c) : isNL c = false := by
  cases r with
  | nil =>
    simp [wfRow] at hwf
  | cons f fs =>
    have hwf1 : wfField f = true := by
      simp only [wfRow, List.all_cons, Bool.and_eq_true] at hwf
      exact hwf.2.1
    cases fs with
    | nil =>
      rw [renderRow, List.map_cons, List.map_nil, intercalate_one] at h
      exact renderField_head f hwf1 c h
    | cons g fs' =>
      rw [renderRow, List.map_cons, List.map_cons, intercalate_cons_cons,
        List.append_assoc] at h
      cases hrf : renderField f with
      | nil =>
        rw [hrf, List.nil_append] at h
        simp only [List.singleton_append, List.head?_cons, Option.some.injEq] at h
        subst h
        rfl
      | cons c0 t0 =>
        rw [hrf] at h
        simp only [List.cons_append, List.head?_cons, Option.some.injEq] at h
        subst h
        exact renderField_head f hwf1 c0 (by rw [hrf]; rfl)

def chainOk : List (List CSVItem) → Bool
  | [] => true
  | [_] => true
  | _ :: r :: rs => ((!(renderRow r).isEmpty) || rs.isEmpty) && chainOk (r :: rs)

theorem rows_consume : ∀ (rows : List (List CSVItem)) (_hne : rows ≠ [])
    (_hwf : ∀ r ∈ rows, wfRow r = true) (_hchain : chainOk rows = true)
    (done : List (List CSVItem)),
    parseGo .outer (List.intercalate ['\n'] (rows.map renderRow)) [] [] [] done =
      done ++ rows.map reparsedRow := by
  intro rows
  induction rows with
  | nil => intro hne; exact absurd rfl hne
  | cons r0 rs ih =>
    intro hne hwf hchain done
    have hwr0 : wfRow r0 = true := hwf r0 (List.mem_cons_self _ _)
    have hr0ne : r0 ≠ [] := by
      intro h
      rw [h] at hwr0
      simp [wfRow] at hwr0
    have hr0wf : r0.all wfField = true := by
      simp only [wfRow, Bool.and_eq_true] at hwr0
      exact hwr0.2
    cases rs with
    | nil =>
      rw [List.map_cons, List.map_nil, intercalate_one,
        row_consume_end r0 hr0ne hr0wf [] done, List.nil_append, List.map_cons, List.map_nil]
    | cons r1 rs' =>
      have hchain2 : chainOk (r1 :: rs') = true := by
        simp only [chainOk, Bool.and_eq_true] at hchain
        exact hchain.2
      have hwf2 : ∀ r ∈ r1 :: rs', wfRow r = true :=
        fun r hr => hwf r (List.mem_cons_of_mem _ hr)
      have hwr1 : wfRow r1 = true := hwf2 r1 (List.mem_cons_self _ _)
      have hshape : List.intercalate ['\n'] ((r0 :: r1 :: rs').map renderRow) =
          renderRow r0 ++ '\n' :: List.intercalate ['\n'] ((r1 :: rs').map renderRow) := by
        rw [List.map_cons, List.map_cons, intercalate_cons_cons]
        simp [List.append_assoc]
      rw [hshape, row_consume_nl r0 hr0ne hr0wf _ [] done, List.nil_append]
      cases hvis : renderRow r1 with
      | nil =>
        have hrs' : rs' = [] := by
          simp only [chainOk, Bool.and_eq_true, Bool.or_eq_true, Bool.not_eq_true'] at hchain
          rcases hchain.1 with h | h
          · rw [hvis] at h
            simp at h
          · exact List.isEmpty_iff.mp h
        subst hrs'
        rw [List.map_cons, List.map_nil, intercalate_one, hvis]
        rw [show afterNL [] (done ++ [reparsedRow r0]) =
            (done ++ [reparsedRow r0]) ++ [[⟨[], [], none⟩]] from rfl]
        have hrp := (renderRow_eq_nil r1 hwr1 hvis).1
        simp [hrp]
      | cons c t1 =>
        have hnl : isNL c = false := renderRow_head r1 hwr1 c (by rw [hvis]; rfl)
        have hT : ∃ t', List.intercalate ['\n'] ((r1 :: rs').map renderRow) = c :: t' := by
          cases rs' with
          | nil =>
            refine ⟨t1, ?_⟩
            rw [List.map_cons, List.map_nil, intercalate_one, hvis]
          | cons r2 rs'' =>
            refine ⟨t1 ++ '\n' :: List.intercalate ['\n'] ((r2 :: rs'').map renderRow), ?_⟩
            rw [List.map_cons, List.map_cons, intercalate_cons_cons, hvis]
            simp [List.append_assoc]
        obtain ⟨t', ht'⟩ := hT
        rw [ht']
        rw [show afterNL (c :: t') (done ++ [reparsedRow r0]) =
            parseGo .outer (c :: t') [] [] [] (done ++ [reparsedRow r0]) from by
          simp [afterNL, hnl]]
        rw [← ht', ih (by simp) hwf2 hchain2 (done ++ [reparsedRow r0])]
        simp

theorem noSpecial_push (val : List Char) (c : Char) (h : noSpecial val = true)
    (hc1 : ¬ c = ',') (hc2 : isNL c = false) : noSpecial (val ++ [c]) = true := by
  have h2 : ¬ c = '\n' ∧ ¬ c = '\r' := by
    simpa [isNL] using hc2
  simp only [noSpecial, List.all_append, List.all_cons, List.all_nil, Bool.and_eq_true,
    Bool.not_eq_true', beq_eq_false_iff_ne, ne_eq] at *
  exact ⟨h, ⟨⟨hc1, h2.1⟩, h2.2⟩, trivial⟩

theorem wfField_push (val quat : List Char) (h : quat = [] → noSpecial val = true) :
    wfField ⟨val, quat, none⟩ = true := by
  by_cases hq : quat = []
  · simp [wfField, h hq]
  · simp [wfField, List.isEmpty_eq_false.mpr hq]

theorem wfRow_push (col : List CSVItem) (f : CSVItem) (hcol : col.all wfField = true)
    (hf : wfField f = true) : wfRow (col ++ [f]) = true := by
  simp [wfRow, List.all_append, hcol, hf]

theorem parseGo_wf_nil (mode : PMode) (val quat : List Char) (col : List CSVItem)
    (row : List (List CSVItem))
    (hval : mode ≠ PMode.quoted → quat = [] → noSpecial val = true)
    (hcol : col.all wfField = true) (hrow : row.all wfRow = true) :
    (parseGo mode [] val quat col row).all wfRow = true ∧
      parseGo mode [] val quat col row ≠ [] := by
  rw [parseGo_nil]
  constructor
  · by_cases hmq : mode = PMode.quoted
    · simp only [if_pos hmq]
      simp [List.all_append, hrow,
        wfRow_push col ⟨val, ['"'], none⟩ hcol (wfField_push val ['"'] (fun h => by cases h))]
    · simp only [if_neg hmq]
      simp [List.all_append, hrow, wfRow_push col ⟨val, quat, none⟩ hcol (wfField_push val quat (hval hmq))]
  · simp

theorem parseGo_wf : ∀ (n : Nat) (input : List Char), input.length ≤ n →
    ∀ (mode : PMode) (val quat : List Char) (col : List CSVItem)
      (row : List (List CSVItem)),
    (mode ≠ PMode.quoted → quat = [] → noSpecial val = true) →
    col.all wfField = true → row.all wfRow = true →
    (parseGo mode input val quat col row).all wfRow = true ∧
      parseGo mode input val quat col row ≠ [] := by
  intro n
  induction n with
  | zero =>
    intro input hlen mode val quat col row hval hcol hrow
    have hinp : input = [] := List.length_eq_zero.mp (Nat.le_zero.mp hlen)
    subst hinp
    exact parseGo_wf_nil mode val quat col row hval hcol hrow
  | succ n ih =>
    intro input hlen mode val quat col row hval hcol hrow
    cases input with
    | nil => exact parseGo_wf_nil mode val quat col row hval hcol hrow
    | cons c rest =>
      by_cases hm : mode = PMode.quoted
      · subst hm
        by_cases hc : c = '"'
        · subst hc
          cases rest with
          | nil =>
            rw [parseGo_quoted_close_nil]
            refine ⟨?_, by simp⟩
            simp [List.all_append, hrow,
              wfRow_push col ⟨val, ['"'], none⟩ hcol (wfField_push val ['"'] (fun h => by cases h))]
          | cons c2 rest2 =>
            by_cases hc2 : c2 = '"'
            · subst hc2
              rw [parseGo_quoted_qq]
              exact ih rest2 (by simp only [List.length_cons] at hlen ⊢; omega) .quoted
                (val ++ ['"']) quat col row (fun h => absurd rfl h) hcol hrow
            · rw [parseGo_quoted_close c2 hc2]
              exact ih (c2 :: rest2) (by simp only [List.length_cons] at hlen ⊢; omega) .outer
                val ['"'] col row (fun _ h => by cases h) hcol hrow
        · rw [parseGo_quoted_plain c hc]
          exact ih rest (by simp only [List.length_cons] at hlen ⊢; omega) .quoted
            (val ++ [c]) quat col row (fun h => absurd rfl h) hcol hrow
      · by_cases hc : c = ','
        · subst hc
          rw [parseGo_comma mode hm]
          refine ih rest (by simp only [List.length_cons] at hlen ⊢; omega) .outer
            [] [] (col ++ [⟨val, quat, none⟩]) row (fun _ _ => rfl) ?_ hrow
          simp [List.all_append, hcol, wfField_push val quat (hval hm)]
        · by_cases hnl : isNL c = true
          · rw [parseGo_nl mode hm c hnl]
            have hrow' : (row ++ [col ++ [(⟨val, quat, none⟩ : CSVItem)]]).all wfRow = true := by
              simp [List.all_append, hrow,
                wfRow_push col ⟨val, quat, none⟩ hcol (wfField_push val quat (hval hm))]
            cases rest with
            | nil =>
              refine ⟨?_, by simp [afterNL]⟩
              rw [show afterNL [] (row ++ [col ++ [(⟨val, quat, none⟩ : CSVItem)]]) =
                  (row ++ [col ++ [(⟨val, quat, none⟩ : CSVItem)]]) ++
                    [[(⟨[], [], none⟩ : CSVItem)]] from rfl]
              rw [List.all_append, hrow']
              decide
            | cons c2 rest2 =>
              by_cases hnl2 : isNL c2 = true
              · rw [show afterNL (c2 :: rest2) (row ++ [col ++ [(⟨val, quat, none⟩ : CSVItem)]]) =
                    parseGo .outer rest2 [] [] []
                      (row ++ [col ++ [(⟨val, quat, none⟩ : CSVItem)]]) from by
                  simp [afterNL, hnl2]]
                exact ih rest2 (by simp only [List.length_cons] at hlen ⊢; omega) .outer
                  [] [] [] _ (fun _ _ => rfl) rfl hrow'
              · rw [show afterNL (c2 :: rest2) (row ++ [col ++ [(⟨val, quat, none⟩ : CSVItem)]]) =
                    parseGo .outer (c2 :: rest2) [] [] []
                      (row ++ [col ++ [(⟨val, quat, none⟩ : CSVItem)]])
                    from by simp [afterNL, hnl2]]
                exact ih (c2 :: rest2) (by simp only [List.length_cons] at hlen ⊢; omega) .outer
                  [] [] [] _ (fun _ _ => rfl) rfl hrow'
          · by_cases hcq : c = '"'
            · subst hcq
              by_cases ho : mode = PMode.outer
              · subst ho
                cases rest with
                | nil =>
                  rw [show parseGo .outer ['"'] val quat col row = row ++
                      [col ++ [⟨val ++ ['u','n','d','e','f','i','n','e','d'], ['"'], none⟩]]
                      from rfl]
                  refine ⟨?_, by simp⟩
                  simp [List.all_append, hrow, wfRow_push col
                    ⟨val ++ ['u','n','d','e','f','i','n','e','d'], ['"'], none⟩ hcol
                    (wfField_push (val ++ ['u','n','d','e','f','i','n','e','d']) ['"']
                      (fun h => by cases h))]
                | cons c2 rest2 =>
                  rw [parseGo_outer_quote c2 rest2]
                  exact ih (c2 :: rest2) (by simp only [List.length_cons] at hlen ⊢; omega)
                    .quoted val quat col row (fun h => absurd rfl h) hcol hrow
              · have hmi : mode = PMode.infield := by
                  cases mode
                  · exact absurd rfl ho
                  · rfl
                  · exact absurd rfl hm
                subst hmi
                rw [parseGo_infield_step '"' rest val quat col row (by simp) (by simp [isNL])]
                exact ih rest (by simp only [List.length_cons] at hlen ⊢; omega) .infield
                  (val ++ ['"']) quat col row
                  (fun _ hqe => noSpecial_push val '"' (hval hm hqe) (by simp) (by simp [isNL]))
                  hcol hrow
            · rw [parseGo_plain mode hm c rest val quat col row hc (by simpa using hnl) hcq]
              exact ih rest (by simp only [List.length_cons] at hlen ⊢; omega) .infield
                (val ++ [c]) quat col row
                (fun _ hqe => noSpecial_push val c (hval hm hqe) hc (by simpa using hnl))
                hcol hrow

theorem parse_wf (src : List Char) :
    (∀ r ∈ parse src, wfRow r = true) ∧ parse src ≠ [] := by
  rw [parse]
  by_cases h : src.length ≤ 0
  · rw [if_pos h]
    refine ⟨?_, by simp⟩
    intro r hr
    simp only [List.mem_singleton] at hr
    subst hr
    decide
  · rw [if_neg h]
    have hmain := parseGo_wf src.length src (Nat.le_refl _) .outer [] [] [] []
      (fun _ _ => rfl) rfl rfl
    exact ⟨fun r hr => (List.all_eq_true.mp hmain.1) r hr, hmain.2⟩

/-- **C7, amended.**  `stringify (parse s)` is semantically equivalent to `s`
— re-parsing it yields the same rows with the same field values in the same
order, quoting flags free to differ — for every string `s` whose parse has no
*interior* invisible row (a row printed as the empty string, i.e. a lone
empty unquoted field, arising from an empty line of `s`): `chainOk` states
that every row other than the first and the last is visible.  Without that
proviso the equivalence fails (`C7_counterexample_three_newlines`), because
`stringify` prints an interior empty row as two adjacent newlines, which the
newline-pair skip of `parse` collapses into one row boundary. -/
theorem C7_amended_value_roundtrip (src : List Char)
    (hchain : chainOk (parse src) = true) :
    csvValues (parse (stringify (parse src))) = csvValues (parse src) := by
  obtain ⟨hwf, hne⟩ := parse_wf src
  by_cases hS : stringify (parse src) = []
  · rw [hS, show parse [] = [[⟨[], [], none⟩]] from rfl]
    rcases hrows : parse src with _ | ⟨r, rs⟩
    · exact absurd hrows hne
    · rcases rs with _ | ⟨r1, rs'⟩
      · have hrr : renderRow r = [] := by
          rw [hrows] at hS
          simpa [stringify, intercalate_one] using hS
        have hwr : wfRow r = true := by
          refine hwf r ?_
          rw [hrows]
          exact List.mem_cons_self _ _
        have hvs := (renderRow_eq_nil r hwr hrr).2
        simp [csvValues, hvs]
      · rw [hrows, stringify, List.map_cons, List.map_cons, intercalate_cons_cons] at hS
        rw [List.append_assoc, List.append_eq_nil] at hS
        cases hS.2
  · have hlen : ¬ (stringify (parse src)).length ≤ 0 := by
      simpa [Nat.le_zero, List.length_eq_zero] using hS
    rw [show parse (stringify (parse src)) =
        parseGo .outer (stringify (parse src)) [] [] [] [] from by
      rw [parse, if_neg hlen]]
    rw [show stringify (parse src) =
        List.intercalate ['\n'] ((parse src).map renderRow) from rfl]
    rw [rows_consume (parse src) hne hwf hchain []]
    simp [csvValues, reparsedRow, reparsedField, List.map_map, Function.comp_def]

/-- **C7, witness**: the amended round-trip theorem applied to the concrete
mixed input `"a,b",c d\ne"f,"g h"\n` — a quoted field with a comma, unquoted
fields with spaces and interior quotes, and a trailing newline. -/
theorem C7_witness :
    chainOk (parse ("\"a,b\",c d\ne\"f,\"g h\"\n".toList)) = true ∧
      csvValues (parse (stringify (parse ("\"a,b\",c d\ne\"f,\"g h\"\n".toList)))) =
        csvValues (parse ("\"a,b\",c d\ne\"f,\"g h\"\n".toList)) :=
  ⟨by decide,
    C7_amended_value_roundtrip ("\"a,b\",c d\ne\"f,\"g h\"\n".toList) (by decide)⟩

end CSV

namespace TSScan

/-- Abstract interface to the Node `fs` / `path` externals used by
`findFile` in `src/ts-scan.ts`: synchronous existence and directory checks,
the two `path.join(…).normalize()` call shapes appearing in the source
(single-argument and base-plus-relative), and `path.dirname`. -/
structure FsEnv where
  existsSync : List Char → Bool
  isDirectory : List Char → Bool
  joinNorm : List Char → List Char
  joinNorm2 : List Char → List Char → List Char
  dirname : List Char → List Char

/-- `const exts = ['', '.ts', '.js', '.jsx', '.tsx'];` (line 28). -/
def exts : List (List Char) := [[], ".ts".toList, ".js".toList, ".jsx".toList, ".tsx".toList]

/-- A candidate path is usable when it exists and is not a directory
(`fs.existsSync(p) && !fs.lstatSync(p).isDirectory()`, line 41). -/
def avail (env : FsEnv) (p : List Char) : Bool :=
  env.existsSync p && !env.isDirectory p

/-- `findFileWithExts` (lines 37–48): try each extension in order and return
the first usable candidate path, or `''` when none is. -/
def findFileWithExts (env : FsEnv) (mk : List Char → List Char) : List Char :=
  match exts.find? (fun ext => avail env (mk ext)) with
  | some ext => mk ext
  | none => []

/-- `filename.startsWith('/')` (line 52). -/
def startsWithSlash : List Char → Bool
  | '/' :: _ => true
  | _ => false

/-- `findFile` (lines 50–107) of `src/ts-scan.ts`.  `undefined` is `none`.
The `try`/`catch` around the body only affects filesystem exceptions, which
the abstract `FsEnv` cannot raise. -/
def findFile (env : FsEnv) (basePath baseDir filename : List Char) : Option (List Char) :=
  if startsWithSlash filename then none
  else if filename = ['.'] then
    let file := findFileWithExts env (fun ext => env.joinNorm (filename ++ "/index".toList ++ ext))
    if file ≠ [] then some file else none
  else if avail env filename then some filename
  else
    let f1 := findFileWithExts env (fun ext => env.joinNorm (filename ++ ext))
    if f1 ≠ [] then some f1 else
    let f2 := findFileWithExts env (fun ext => env.joinNorm (filename ++ "/index".toList ++ ext))
    if f2 ≠ [] then some f2 else
    if basePath = [] then none else
    let f3 := findFileWithExts env (fun ext => env.joinNorm2 basePath (filename ++ ext))
    if f3 ≠ [] then some f3 else
    let f4 := findFileWithExts env (fun ext => env.joinNorm2 basePath (filename ++ "/index".toList ++ ext))
    if f4 ≠ [] then some f4 else
    let f5 := findFileWithExts env (fun ext => env.joinNorm2 baseDir (filename ++ ext))
    if f5 ≠ [] then some f5 else
    let f6 := findFileWithExts env (fun ext => env.joinNorm2 baseDir (filename ++ "/index".toList ++ ext))
    if f6 ≠ [] then some f6 else
    none

/-- `removeRootDir` (lines 30–35): strip `srcDir` when it is a prefix of
`src` (`src.indexOf(srcDir) === 0`). -/
def removeRootDir (srcDir src : List Char) : List Char :=
  if srcDir ≠ [] ∧ srcDir.isPrefixOf src then src.drop srcDir.length else src

/-- The process-global `cachedFiles: { [index: string]: string[] }`
(line 111), as an insertion-ordered association list (JavaScript object
string keys enumerate in insertion order, which `Object.entries` in
`scanAsync` relies on). -/
abbrev Cache := List (List Char × List (List Char))

/-- The test `if (cachedFiles[srcPath]) …` (line 115): the entry exists (a
stored import array, even empty, is truthy). -/
def cacheHas (cache : Cache) (p : List Char) : Bool :=
  cache.any (fun e => e.1 == p)

/-- `scanTypescriptAsync` (lines 113–133), with the global `cachedFiles`
threaded explicitly and the external pipeline
`fs.readFileSync` → `ts.preProcessFile` → `findFile` → `filter(isDefined)`
abstracted as `imp : path → resolved imports` (per line 120–123 its output
is already the filtered list of successfully resolved paths).  `fuel`
bounds the recursion depth; the source recurses unboundedly, and every
theorem below quantifies over or instantiates sufficient fuel.  Reading and
preprocessing a file happens exactly on the cache-miss branch, immediately
before its entry is appended. -/
def scanGo (imp : List Char → List (List Char)) : Nat → List Char → Cache → Cache
  | 0, _, cache => cache
  | fuel + 1, srcPath, cache =>
      if cacheHas cache srcPath then cache
      else
        let imports := imp srcPath
        (imports.foldl (fun c f => scanGo imp fuel f c) (cache ++ [(srcPath, imports)]))

/-- One record of the edge list returned by `scanAsync` (lines 137–140). -/
structure Edge where
  source : List Char
  imports : List (List Char)
deriving DecidableEq, Repr

/-- The result mapping of `scanAsync` (lines 135–142): each cache entry,
path-relativized against `baseDir` with `removeRootDir`. -/
def cacheEdges (baseDir : List Char) (cache : Cache) : List Edge :=
  cache.map (fun kv => ⟨removeRootDir baseDir kv.1, kv.2.map (removeRootDir baseDir)⟩)

/-- `scanAsync` (lines 135–142): run `scanTypescriptAsync`, then return the
relativized edge list built from the (updated) global cache.  The pair also
exposes the post-call global cache, which persists across invocations. -/
def scanAsyncRun (imp : List Char → List (List Char)) (fuel : Nat)
    (srcPath baseDir : List Char) (cache : Cache) : Cache × List Edge :=
  let cache2 := scanGo imp fuel srcPath cache
  (cache2, cacheEdges baseDir cache2)

/-- **C9.** For every specifier starting with the path-root marker `/`,
`findFile` returns `none`, whatever the `basePath`/`baseDir` arguments and
the file system contain. -/
theorem C9_absolute_specifier_unresolved (env : FsEnv) (basePath baseDir fn : List Char)
    (h : startsWithSlash fn = true) : findFile env basePath baseDir fn = none := by
  simp [findFile, h]

/-- A file system with no files at all, used to instantiate resolver
theorems on concrete inputs. -/
def emptyEnv : FsEnv :=
  ⟨fun _ => false, fun _ => false, id, fun a b => a ++ b, id⟩

/-- **C9, witness** at the concrete specifier `"/abs"`. -/
theorem C9_witness :
    startsWithSlash ("/abs".toList) = true ∧
      findFile emptyEnv ("base".toList) ("dir".toList) ("/abs".toList) = none :=
  ⟨by decide, C9_absolute_specifier_unresolved emptyEnv _ _ _ (by decide)⟩

/-- A file system containing both a file named `./index` (no extension) and
a file `./index.ts`, with `path.join(…).normalize()` the identity. -/
def envIndexBoth : FsEnv :=
  ⟨fun p => p == "./index".toList || p == "./index.ts".toList, fun _ => false, id,
    fun a b => a ++ b, id⟩

/-- **C6, counterexample.**  A directory can contain `index.ts` and yet
resolving the specifier `"."` need *not* return that `index.ts`: the fixed
extension list is tried in the order `['', '.ts', …]`, so when a file named
`./index` (no extension) also exists, `findFile` returns it instead of
`./index.ts`. -/
theorem C6_counterexample_plain_index_wins :
    avail envIndexBoth (envIndexBoth.joinNorm ("./index.ts".toList)) = true ∧
      findFile envIndexBoth [] [] (".".toList) = some ("./index".toList) ∧
      findFile envIndexBoth [] [] (".".toList) ≠
        some (envIndexBoth.joinNorm ("./index.ts".toList)) := by
  refine ⟨by decide, by decide, by decide⟩

/-- Unfolding `scanGo` one fuel step. -/
theorem scanGo_succ (imp : List Char → List (List Char)) (n : Nat) (p : List Char)
    (cache : Cache) :
    scanGo imp (n + 1) p cache =
      if cacheHas cache p then cache
      else (imp p).foldl (fun c f => scanGo imp n f c) (cache ++ [(p, imp p)]) := rfl

/-- The `"."` branch of `findFile` (lines 53–61), with the candidate maker
`path.join(\`${filename}/index${ext}\`)` rewritten through
`"." ++ "/index" = "./index"`. -/
theorem findFile_dot (env : FsEnv) (basePath baseDir : List Char) :
    findFile env basePath baseDir (".".toList) =
      (if findFileWithExts env (fun ext => env.joinNorm ("./index".toList ++ ext)) ≠ [] then
        some (findFileWithExts env (fun ext => env.joinNorm ("./index".toList ++ ext)))
      else none) := by
  have hpre : ∀ ext : List Char,
      (".".toList : List Char) ++ "/index".toList ++ ext = "./index".toList ++ ext := by
    intro ext
    rw [show ((".".toList : List Char) ++ "/index".toList) = "./index".toList from by decide]
  unfold findFile
  rw [if_neg (by decide : ¬ startsWithSlash (".".toList) = true)]
  rw [if_pos (by decide : (".".toList : List Char) = ['.'])]
  simp only [hpre]

/-- **C6, amended.**  For the specifier `"."` only the five candidates
`./index` + extension from `['', '.ts', '.js', '.jsx', '.tsx']` are tried,
in that order, stopping at the first existing non-directory file, with no
other fallback.  Consequently: resolving `"."` returns the (normalized,
nonempty) `./index.ts` path whenever that file exists as a non-directory
file *and the earlier extensionless candidate `./index` does not*; and it
returns `none` when none of the five candidates exists, regardless of
`basePath`, `baseDir` and the rest of the file system. -/
theorem C6_amended_dot_resolution (env : FsEnv) (basePath baseDir : List Char) :
    (avail env (env.joinNorm ("./index".toList)) = false →
      avail env (env.joinNorm ("./index.ts".toList)) = true →
      env.joinNorm ("./index.ts".toList) ≠ [] →
      findFile env basePath baseDir (".".toList) = some (env.joinNorm ("./index.ts".toList)))
    ∧ ((∀ e ∈ exts, avail env (env.joinNorm ("./index".toList ++ e)) = false) →
      findFile env basePath baseDir (".".toList) = none) := by
  have hts : ("./index".toList : List Char) ++ ".ts".toList = "./index.ts".toList := by decide
  constructor
  · intro hplain h1 hne
    rw [findFile_dot]
    have step1 : List.find? (fun ext => avail env (env.joinNorm ("./index".toList ++ ext))) exts =
        some (".ts".toList) := by
      unfold exts
      rw [List.find?_cons_of_neg _ (by simp only [Bool.not_eq_true]; exact hplain)]
      rw [List.find?_cons_of_pos]
      exact h1
    have hfw : findFileWithExts env (fun ext => env.joinNorm ("./index".toList ++ ext)) =
        env.joinNorm ("./index.ts".toList) := by
      unfold findFileWithExts
      rw [step1]
      show env.joinNorm ("./index".toList ++ ".ts".toList) = env.joinNorm ("./index.ts".toList)
      rw [hts]
    rw [hfw, if_pos hne]
  · intro hnone
    rw [findFile_dot]
    have hfind : List.find? (fun ext => avail env (env.joinNorm ("./index".toList ++ ext))) exts =
        none := by
      apply List.find?_eq_none.2
      intro e he
      simp only [Bool.not_eq_true]
      exact hnone e he
    have hfw : findFileWithExts env (fun ext => env.joinNorm ("./index".toList ++ ext)) = [] := by
      unfold findFileWithExts
      rw [hfind]
    rw [hfw]
    simp

/-- A file system containing exactly the file `./index.ts`. -/
def envIndexTs : FsEnv :=
  ⟨fun p => p == "./index.ts".toList, fun _ => false, id, fun a b => a ++ b, id⟩

/-- **C6, witness**: on a file system containing exactly `./index.ts`,
resolving `"."` returns it. -/
theorem C6_witness :
    avail envIndexTs (envIndexTs.joinNorm ("./index".toList)) = false ∧
      avail envIndexTs (envIndexTs.joinNorm ("./index.ts".toList)) = true ∧
      findFile envIndexTs [] [] (".".toList) = some (envIndexTs.joinNorm ("./index.ts".toList)) :=
  ⟨by decide, by decide,
    (C6_amended_dot_resolution envIndexTs [] []).1 (by decide) (by decide) (by decide)⟩

/-- **C5.**  For an import graph with a two-cycle (`A` imports `B`, and
`B` imports `A`), the scan reaches its fixed point within fuel 3 — so the
unbounded recursion of the source terminates — and the returned edge list
is exactly one record for `A` and one for `B`; moreover a path already
present in the memo table is returned from immediately, without being
re-read or re-preprocessed (the cache, which doubles as the read log, is
not extended). -/
theorem C5_cycle_scan (imp : List Char → List (List Char)) (A B bd : List Char)
    (hne : A ≠ B) (hA : imp A = [B]) (hB : imp B = [A]) :
    (∀ fuel, 3 ≤ fuel →
      scanAsyncRun imp fuel A bd [] =
        ([(A, [B]), (B, [A])],
          [⟨removeRootDir bd A, [removeRootDir bd B]⟩,
            ⟨removeRootDir bd B, [removeRootDir bd A]⟩]))
    ∧ (∀ fuel p cache, cacheHas cache p = true → scanGo imp fuel p cache = cache) := by
  have memo : ∀ fuel p cache, cacheHas cache p = true → scanGo imp fuel p cache = cache := by
    intro fuel p cache h
    cases fuel with
    | zero => rfl
    | succ n => rw [scanGo_succ, if_pos h]
  refine ⟨?_, memo⟩
  intro fuel hf
  obtain ⟨f, rfl⟩ : ∃ f, fuel = f + 1 + 1 + 1 := ⟨fuel - 3, by omega⟩
  have hscan : scanGo imp (f + 1 + 1 + 1) A [] = [(A, [B]), (B, [A])] := by
    rw [scanGo_succ, if_neg (by simp [cacheHas]), hA]
    simp only [List.foldl_cons, List.foldl_nil, List.nil_append]
    rw [scanGo_succ, if_neg (by simp [cacheHas, hne]), hB]
    simp only [List.foldl_cons, List.foldl_nil, List.cons_append, List.nil_append]
    exact memo _ _ _ (by simp [cacheHas])
  simp [scanAsyncRun, hscan, cacheEdges]

/-- The two-file cyclic project used to instantiate `C5_cycle_scan`. -/
def impCycle : List Char → List (List Char) :=
  fun p => if p = "a.ts".toList then ["b.ts".toList]
    else if p = "b.ts".toList then ["a.ts".toList] else []

/-- **C5, witness** at the concrete cyclic project `a.ts ↔ b.ts`. -/
theorem C5_witness :
    scanAsyncRun impCycle 3 ("a.ts".toList) [] [] =
      ([("a.ts".toList, ["b.ts".toList]), ("b.ts".toList, ["a.ts".toList])],
        [⟨"a.ts".toList, ["b.ts".toList]⟩, ⟨"b.ts".toList, ["a.ts".toList]⟩]) := by
  have h := (C5_cycle_scan impCycle ("a.ts".toList) ("b.ts".toList) [] (by decide)
    (by decide) (by decide)).1 3 (by omega)
  rw [h]
  decide

/-- The scanner cache only ever grows: `scanGo` returns an extension of the
cache it was given. -/
theorem scanGo_cache_extends (imp : List Char → List (List Char)) :
    ∀ (fuel : Nat) (p : List Char) (cache : Cache), cache <+: scanGo imp fuel p cache := by
  intro fuel
  induction fuel with
  | zero => intro p cache; exact List.prefix_refl _
  | succ n ih =>
      intro p cache
      rw [scanGo_succ]
      by_cases h : cacheHas cache p
      · rw [if_pos h]
      · rw [if_neg h]
        have aux : ∀ (l : List (List Char)) (c : Cache),
            c <+: l.foldl (fun c f => scanGo imp n f c) c := by
          intro l
          induction l with
          | nil => intro c; exact List.prefix_refl _
          | cons g t iht =>
              intro c
              simp only [List.foldl_cons]
              exact (ih g c).trans (iht _)
        exact (List.prefix_append cache [(p, imp p)]).trans (aux _ _)

/-- **C10.**  The memo table is append-only — a `scanAsync` run extends the
cache it starts from, never deleting or overwriting an entry — so the edge
list returned by a later invocation still contains every relativized source
record built from the cache state left by earlier invocations. -/
theorem C10_cache_append_only (imp : List Char → List (List Char)) (fuel : Nat)
    (p bd : List Char) (cache : Cache) :
    cache <+: (scanAsyncRun imp fuel p bd cache).1 ∧
      ∀ e ∈ cacheEdges bd cache, e ∈ (scanAsyncRun imp fuel p bd cache).2 := by
  refine ⟨scanGo_cache_extends imp fuel p cache, ?_⟩
  intro e he
  obtain ⟨t, ht⟩ := scanGo_cache_extends imp fuel p cache
  show e ∈ cacheEdges bd (scanGo imp fuel p cache)
  rw [← ht]
  unfold cacheEdges at he ⊢
  rw [List.map_append]
  exact List.mem_append_left _ he

/-- **C10, witness**: an entry recorded by a first invocation survives into
the edge list of a second invocation on a different entry file. -/
theorem C10_witness :
    ("a.ts".toList, ["b.ts".toList]) ∈ (scanAsyncRun impCycle 3 ("a.ts".toList) [] []).1 ∧
      (⟨"a.ts".toList, ["b.ts".toList]⟩ : Edge) ∈
        (scanAsyncRun impCycle 3 ("c.ts".toList) []
          (scanAsyncRun impCycle 3 ("a.ts".toList) [] []).1).2 := by
  constructor
  · decide
  · exact (C10_cache_append_only impCycle 3 ("c.ts".toList) []
      (scanAsyncRun impCycle 3 ("a.ts".toList) [] []).1).2 _ (by decide)

end TSScan

namespace TSComp

/-- `enum AttentionKind` of `src/ts-component.ts` (lines 12–30).  Several of
the source's member names (`none`, `import`, `export`, `class`) are Lean
keywords or clash with the prelude, so they carry an `A` suffix here;
the order and meaning are the source's. -/
inductive AttentionKind where
  | noneA
  | importA
  | arrow
  | arrowVariable
  | parameter
  | exportA
  | paren
  | func
  | classA
  | call
  | var
  | component
  | comment
  | expression
  | object
  | property
  | block
deriving DecidableEq, Repr

/-- The slice of `AstInfo` (from `scanAllChildren` in `ts-parser.ts`) that
`Parser` reads: node-kind label, reconstructed depth (`level`), start line,
and source text.  (`pos`/`end`/`endl`/`element`/`hasNodes` are never used by
the pattern matcher.) -/
structure AstIn where
  kind : List Char
  level : Nat
  line : Nat
  text : List Char
deriving DecidableEq, Repr

/-- `AstNode` of `src/ts-component.ts` (lines 32–43) in arena form: the
mutable per-node state during a `Parser.traverse` walk.  Object references
(`identifier`, `returnStatement`, `children`) are indices into the node
arena (the `_info` array order), since the source aliases live objects.
`synExport` is `syntax.export`; `index` is the field set by `initAstNode`
and *mutated* by the call-expression rule; `pos0` is a specification ghost
holding the original pre-order position — it is initialized equal to
`index` and never touched by any rule. -/
structure NodeData where
  kind : List Char
  level : Nat
  line : Nat
  text : List Char
  index : Nat
  pos0 : Nat
  note : List Char
  attention : AttentionKind
  synExport : Bool
  identifier : Option Nat
  returnStatement : Option Nat
  children : List Nat
  path : Option (List Char)
deriving DecidableEq, Repr

/-- Placeholder for out-of-range arena reads (`this._info[i]` past the end
is `undefined` in the source; it is never dereferenced on any path the
theorems below exercise). -/
def dummyNode : NodeData :=
  ⟨[], 0, 0, [], 0, 0, [], .noneA, false, none, none, [], none⟩

/-- Arena read. -/
def getN (s : List NodeData) (i : Nat) : NodeData := s.getD i dummyNode

/-- Arena update (no-op out of range, where the source has no node). -/
def setN (s : List NodeData) (i : Nat) (f : NodeData → NodeData) : List NodeData :=
  s.set i (f (getN s i))

/-- `initAstNode` (lines 50–53) applied over the flattened node list
(line 844: `lineInfo.forEach((n, i) => initAstNode(i, n))`): each node gets
`syntax = {export: false}` and `index = i`, its pre-order position. -/
def initNodes (info : List AstIn) : List NodeData :=
  info.mapIdx (fun i a =>
    ⟨a.kind, a.level, a.line, a.text, i, i, [], .noneA, false, none, none, [], none⟩)

/-- The mutable state of one `Parser`: the node arena (`_info` plus all
per-node mutations), the ancestor stack (`AstStack`, as node indices), the
`attentions` list (node indices, in discovery order), and the cursor `_ptr`. -/
structure PState where
  store : List NodeData
  stack : List Nat
  attentions : List Nat
  ptr : Nat
deriving DecidableEq, Repr

/-- JavaScript array indexing `this[i]` with possibly negative or
out-of-range `i` (used by `AstStack.last(offset)`): `undefined` is `none`. -/
def jsAt (l : List Nat) (i : Int) : Option Nat :=
  if h : 0 ≤ i ∧ i.toNat < l.length then some (l.get ⟨i.toNat, h.2⟩) else none

/-- `AstStack.last(offset)` (lines 74–76): `this[this.length - 1 + offset]`. -/
def stackLast (stack : List Nat) (off : Int) : Option Nat :=
  jsAt stack ((stack.length : Int) - 1 + off)

/-- `AstStack.indexFromLast(kind, offset)` (lines 77–98): scan from
`length - 1 + offset` down to `0` for the first stack node whose kind is in
`kinds`; `-1` (not found) is `none`. -/
def indexFromLast (store : List NodeData) (stack : List Nat) (kinds : List (List Char))
    (off : Int) : Option Nat :=
  (List.range stack.length).reverse.find? (fun i =>
    decide ((i : Int) ≤ (stack.length : Int) - 1 + off) &&
      kinds.any (fun k => (getN store (stack.getD i 0)).kind == k))

/-- `AstStack.findFromLast` (lines 99–107): like `indexFromLast` but the
hook receives the stack *node*; here, its index in the arena. -/
def findFromLastId (store : List NodeData) (stack : List Nat) (kinds : List (List Char))
    (off : Int) : Option Nat :=
  (indexFromLast store stack kinds off).map (fun i => stack.getD i 0)

/-- Loop body of `AstStack.findTop` (lines 108–119): scan `i` from
`length - 2` down to `0`, remembering the latest match in `f` and breaking
at the first non-match after a match; the hook then gets `this[f]`
(for `f = -1`, `none` here, the source would dereference `undefined`). -/
def findTopGo (store : List NodeData) (stack : List Nat) (k : List Char) :
    List Nat → Option Nat → Option Nat
  | [], f => f
  | i :: rest, f =>
      if (getN store (stack.getD i 0)).kind == k then findTopGo store stack k rest (some i)
      else
        match f with
        | some j => some j
        | none => findTopGo store stack k rest none

/-- `AstStack.findTop(kind)` as the arena index of the found stack node. -/
def findTopId (store : List NodeData) (stack : List Nat) (k : List Char) : Option Nat :=
  (findTopGo store stack k ((List.range (stack.length - 1)).reverse) none).map
    (fun i => stack.getD i 0)

/-- `get astPath` (lines 151–153): stack kinds joined by `/`. -/
def astPath (store : List NodeData) (stack : List Nat) : List Char :=
  List.intercalate ['/'] (stack.map (fun id => (getN store id).kind))

/-- `trimQuat` (lines 63–67): strip one layer of matching quotes via
`^['"](.+)['"]$` (at least one inner character; `.` does not match a line
terminator). -/
def isQuoteCh (c : Char) : Bool := c = '\'' || c = '"'

def trimQuat (s : List Char) : List Char :=
  if 3 ≤ s.length && isQuoteCh (s.headD ' ') && isQuoteCh (s.getLastD ' ') &&
      (s.drop 1).dropLast.all (fun c => c ≠ '\n' && c ≠ '\r') then
    (s.drop 1).dropLast
  else s

/-- A JavaScript `RegExp.test` for a `…$`-anchored literal pattern: the path
string ends with the pattern text.  (Kind names contain no `/`, but the test
is on the joined string, exactly as in the source.) -/
def endsWith (p pat : List Char) : Bool := pat.reverse.isPrefixOf p.reverse

/-- A `RegExp.test` for an unanchored literal pattern: substring search. -/
def containsStr (p pat : List Char) : Bool :=
  (List.range (p.length + 1)).any (fun i => pat.isPrefixOf (p.drop i))

/-- `RegExp.test` for `/ArrowFunction\/(.+?)Expression\/OpenParenToken$/`
(and its `CloseParenToken` twin): the path ends with `tl` and an occurrence
of `ArrowFunction/` lies entirely before the last `tl.length + 1`
characters (the `(.+?)` needs at least one character). -/
def arrowGapTest (p tl : List Char) : Bool :=
  endsWith p tl && containsStr (p.take (p.length - tl.length - 1)) ("ArrowFunction/".toList)

/-- The resolver context of one `Parser` (its `ParserOption`, line 256–260,
plus the `fs`/`path` externals reached through `toAbsolutePath`). -/
structure PEnv where
  fsEnv : TSScan.FsEnv
  srcPath : List Char
  baseDir : List Char

/-- `Parser.toAbsolutePath` (lines 326–331):
`findFile(path.dirname(srcPath), baseDir, p)`, falling back to `p`. -/
def toAbsolutePath (pe : PEnv) (p : List Char) : List Char :=
  match TSScan.findFile pe.fsEnv (pe.fsEnv.dirname pe.srcPath) pe.baseDir p with
  | none => p
  | some r => r

/-- `Parser.pushAttention` (lines 316–319). -/
def pushAttention (st : PState) (id : Nat) (a : AttentionKind) : PState :=
  { st with store := setN st.store id (fun n => { n with attention := a }),
            attentions := st.attentions ++ [id] }

/-- Arena field update inside a state. -/
def modN (st : PState) (id : Nat) (f : NodeData → NodeData) : PState :=
  { st with store := setN st.store id f }

/-- The `isExport` closure of `Parser.traverse` (lines 339–349): the stack
node at `offset` from the top exists, has `syntax.export === true`, and
(when given) has kind `kind`. -/
def isExport (store : List NodeData) (stack : List Nat) (off : Int)
    (k : Option (List Char)) : Bool :=
  match stackLast stack off with
  | none => false
  | some id =>
      (getN store id).synExport &&
        (match k with
          | none => true
          | some kk => (getN store id).kind == kk)

end TSComp

namespace TSComp

/-- `this.stack.last()` — the current node, which at every `stack.match`
call site equals the stack top (the traversal re-establishes this before
each loop iteration; the stack is nonempty whenever rules run). -/
def topOf (st : PState) : Nat := st.stack.getLastD 0

/-- Rule “import 定義” (lines 352–359). -/
def actImportDecl (st : PState) : PState := pushAttention st (topOf st) .importA

/-- Rule “import ID” (lines 360–378): append the identifier to the
enclosing `ImportDeclaration`'s `children`. -/
def actImportId (st : PState) : PState :=
  match findFromLastId st.store st.stack [("ImportDeclaration".toList)] (-1) with
  | some nid => modN st nid (fun n => { n with children := n.children ++ [topOf st] })
  | none => st

/-- Rule “import パス” (lines 379–394): resolve the string literal through
`toAbsolutePath` and store it on the `ImportDeclaration`. -/
def actImportPath (pe : PEnv) (st : PState) : PState :=
  match findFromLastId st.store st.stack [("ImportDeclaration".toList)] (-1) with
  | some nid =>
      modN st nid (fun n =>
        { n with path := some (toAbsolutePath pe (trimQuat (getN st.store (topOf st)).text)) })
  | none => st

/-- Rule “変数を特定” (lines 395–412): tag the identifier `var`, inherit the
export flag from a `VariableStatement` four above, link it as the
`VariableDeclaration`'s identifier. -/
def actVarId (st : PState) : PState :=
  let t := topOf st
  let st1 :=
    if isExport st.store st.stack (-4) (some ("VariableStatement".toList)) then
      modN st t (fun n => { n with synExport := true })
    else st
  let st2 := pushAttention st1 t .var
  match findFromLastId st2.store st2.stack [("VariableDeclaration".toList)] (-1) with
  | some nid => modN st2 nid (fun n => { n with identifier := some t })
  | none => st2

/-- Rule “クラスを特定” (lines 413–420). -/
def actClassId (st : PState) : PState := pushAttention st (topOf st) .classA

/-- Rule “関数名を特定” (lines 421–438). -/
def actFuncId (st : PState) : PState :=
  let t := topOf st
  let st1 :=
    if isExport st.store st.stack (-1) none then
      modN st t (fun n => { n with synExport := true })
    else st
  let st2 := pushAttention st1 t .func
  match findFromLastId st2.store st2.stack [("FunctionDeclaration".toList)] (-1) with
  | some nid => modN st2 nid (fun n => { n with identifier := some t })
  | none => st2

/-- Rule “関数呼び出し” on the `CallExpression` itself (lines 439–447):
tag `call` and reset the node's text. -/
def actCall (st : PState) : PState :=
  let t := topOf st
  modN (pushAttention st t .call) t (fun n => { n with text := [] })

/-- Rule “関数呼び出し” on callee-chain tokens (lines 448–461): the node at
`offset` (the `CallExpression`) takes the current token's `index` and
appends its text. -/
def actCallChild (st : PState) (off : Int) : PState :=
  let t := topOf st
  match stackLast st.stack off with
  | some tgt =>
      modN st tgt (fun n =>
        { n with index := (getN st.store t).index, text := n.text ++ (getN st.store t).text })
  | none => st

/-- Rule “コンポーネントが戻り値になっている関数を特定” (lines 462–508). -/
def actReturnJsx (st : PState) (opt : List Char) : PState :=
  let t := topOf st
  let st2 := pushAttention (modN st t (fun n => { n with note := opt })) t .component
  match findFromLastId st2.store st2.stack
      [("FunctionDeclaration".toList), ("VariableDeclaration".toList)] (-1) with
  | some nid =>
      match (getN st2.store nid).identifier with
      | some idf => modN st2 idf (fun n => { n with returnStatement := some t })
      | none => st2
  | none => st2

/-- Rule “コンポーネントが戻り値になっているアロー関数を特定”
(lines 509–560): note the option pair `[offset, note]`; only fragment notes
are pushed as attentions; the declaration at `offset` gets the back link on
its identifier. -/
def actArrowJsx (st : PState) (off : Int) (opt : List Char) : PState :=
  let t := topOf st
  let st1 := modN st t (fun n => { n with note := opt })
  let st2 := if containsStr opt ("fragment".toList) then pushAttention st1 t .component else st1
  match stackLast st2.stack off with
  | some vid =>
      match (getN st2.store vid).identifier with
      | some idf => modN st2 idf (fun n => { n with returnStatement := some t })
      | none => st2
  | none => st2

/-- Rule “関数で使用しているコンポーネント” (lines 561–608): `…-prop`
options append the tag text to the enclosing `PropertyAccessExpression`;
otherwise the tag is pushed `component` — but only when a
`FunctionDeclaration`/`VariableDeclaration` is on the stack (the push
happens inside the `findFromLast` hook). -/
def actJsxUsage (st : PState) (opt : List Char) : PState :=
  let t := topOf st
  let st1 := modN st t (fun n => { n with note := opt })
  if containsStr opt ("prop".toList) then
    match findFromLastId st1.store st1.stack [("PropertyAccessExpression".toList)] (-1) with
    | some nid => modN st1 nid (fun n => { n with text := n.text ++ (getN st1.store t).text })
    | none => st1
  else
    match findFromLastId st1.store st1.stack
        [("FunctionDeclaration".toList), ("VariableDeclaration".toList)] (-1) with
    | some _ => pushAttention st1 t .component
    | none => st1

/-- Rule “プロパティ”, `word` options (lines 609–641): append the token text
to the topmost node of the contiguous `PropertyAccessExpression` run found
by `findTop`.  (For `findTop`'s `-1` the source would dereference
`undefined`; that configuration is unreachable in the walks verified
below.) -/
def actPropertyWord (st : PState) : PState :=
  let t := topOf st
  match findTopId st.store st.stack ("PropertyAccessExpression".toList) with
  | some nid => modN st nid (fun n => { n with text := n.text ++ (getN st.store t).text })
  | none => st

/-- Rule “プロパティ”, head options `jsx-open`/`jsx-close`/`prop`
(lines 619–639): when the parent is not itself a
`PropertyAccessExpression`, reset the node's text and tag it `component`
(with note, for the jsx options) or `expression`. -/
def actPropertyHead (st : PState) (opt : List Char) : PState :=
  let t := topOf st
  let lastKind :=
    match stackLast st.stack (-1) with
    | some id => (getN st.store id).kind
    | none => []
  if lastKind ≠ ("PropertyAccessExpression".toList) then
    let st1 := modN st t (fun n => { n with text := [] })
    if containsStr opt ("jsx".toList) then
      pushAttention (modN st1 t (fun n => { n with note := opt })) t .component
    else pushAttention st1 t .expression
  else st

/-- Rule “パラメータ” for object-binding patterns (lines 650–676): tag the
identifier `parameter`; copy its text onto the nearest
`ObjectBindingPattern`; then, if an outer `ObjectBindingPattern` exists at
offset `-4`, prefix the identifier's text with that pattern's text and a
dot. -/
def actObjBindParam (st : PState) : PState :=
  let t := topOf st
  let st1 := pushAttention st t .parameter
  let st2 :=
    match findFromLastId st1.store st1.stack [("ObjectBindingPattern".toList)] (-1) with
    | some nid => modN st1 nid (fun n => { n with text := (getN st1.store t).text })
    | none => st1
  match findFromLastId st2.store st2.stack [("ObjectBindingPattern".toList)] (-4) with
  | some nid => modN st2 t (fun n => { n with text := (getN st2.store nid).text ++ '.' :: n.text })
  | none => st2

/-- The nested `stack.match` inside rule “アロー関数” (lines 692–708): when
an arrow function initializes a variable declaration, the declaration at
`offset` is reclassified `arrowVariable` (without entering `attentions`),
and a pending export marker at `offset - 3` propagates onto the
declaration's identifier. -/
def innerArrowVar (st : PState) (off : Int) : PState :=
  match stackLast st.stack off with
  | some vid =>
      let st1 :=
        if isExport st.store st.stack (off - 3) none then
          match (getN st.store vid).identifier with
          | some idf => modN st idf (fun n => { n with synExport := true })
          | none => st
        else st
      modN st1 vid (fun n => { n with attention := .arrowVariable })
  | none => st

/-- Rule “アロー関数” (lines 677–716): run the nested variable-arrow match,
set the note, and push `arrow` (for `=>`) or `paren` (for the bracket
tokens). -/
def actArrowPunct (st : PState) (opt : List Char) : PState :=
  let path := astPath st.store st.stack
  let st1 :=
    if endsWith path ("VariableDeclaration/ArrowFunction/OpenParenToken".toList) then
      innerArrowVar st (-2)
    else if endsWith path
        ("VariableDeclaration/ArrowFunction/ParenthesizedExpression/OpenBraceToken".toList) then
      innerArrowVar st (-3)
    else st
  let t := topOf st1
  let st2 := modN st1 t (fun n => { n with note := opt })
  if opt == "arrow".toList then pushAttention st2 t .arrow else pushAttention st2 t .paren

/-- Rules “オブジェクト” / “オブジェクトプロパティ” / “ブロック”
(lines 717–737 and 757–768): set the note and push the given kind. -/
def actBraces (st : PState) (opt : List Char) (a : AttentionKind) : PState :=
  let t := topOf st
  pushAttention (modN st t (fun n => { n with note := opt })) t a

/-- `slice(option).forEach((node) => (node.syntax.export = true))` of the
export rule: mark each listed node exported, in order. -/
def markIds (st : PState) (ids : List Nat) : PState :=
  ids.foldl (fun s id => modN s id (fun n => { n with synExport := true })) st

/-- Rule “エキスポート” (lines 738–756): mark every stack node from
`offset` (`-3` or `-2`) on as exported (`slice(option)` keeps the last
`-offset` stack entries, i.e. drops `max(length + offset, 0)`), re-mark
the current node (`node.syntax = { export: true }`), and set its note. -/
def actExport (st : PState) (off : Int) : PState :=
  let t := topOf st
  let marked := markIds st (st.stack.drop (((st.stack.length : Int) + off).toNat))
  modN (modN marked t (fun n => { n with synExport := true })) t
    (fun n => { n with note := "export".toList })

/-- The rule table of `Parser.traverse` (lines 351–777) against a given
ancestor-path string, flattened: the
source's `stack.match(regs)` evaluates rule groups with `Array.some` and
each group's `exp` alternatives with `Array.some`, so exactly the *first*
matching alternative in the listed order fires — an ordered alternation,
which this if-chain reproduces alternative by alternative.  (The second
`ReturnStatement/JsxSelfClosingElement/Identifier` entry is the source's
own dead duplicate of an earlier alternative.) -/
def applyRulesP (pe : PEnv) (st : PState) (path : List Char) : PState :=
  if endsWith path ("ImportDeclaration".toList) then actImportDecl st
  else if endsWith path ("ImportDeclaration/ImportClause/Identifier".toList) then actImportId st
  else if endsWith path ("ImportDeclaration/ImportClause/NamespaceImport/Identifier".toList) then
    actImportId st
  else if endsWith path
      ("ImportDeclaration/ImportClause/NamedImports/SyntaxList/ImportSpecifier/Identifier".toList) then
    actImportId st
  else if endsWith path ("ImportDeclaration/StringLiteral".toList) then actImportPath pe st
  else if endsWith path ("VariableDeclaration/Identifier".toList) then actVarId st
  else if containsStr path ("ClassDeclaration/Identifier".toList) then actClassId st
  else if endsWith path ("FunctionDeclaration/Identifier".toList) then actFuncId st
  else if endsWith path ("CallExpression".toList) then actCall st
  else if endsWith path ("CallExpression/PropertyAccessExpression/Identifier".toList) then
    actCallChild st (-2)
  else if endsWith path ("CallExpression/PropertyAccessExpression/DotToken".toList) then
    actCallChild st (-2)
  else if endsWith path ("CallExpression/PropertyAccessExpression/QuestionDotToken".toList) then
    actCallChild st (-2)
  else if endsWith path ("CallExpression/Identifier".toList) then actCallChild st (-1)
  else if endsWith path
      ("ReturnStatement/ParenthesizedExpression/JsxElement/JsxOpeningElement/Identifier".toList) then
    actReturnJsx st ("jsx-open-return".toList)
  else if endsWith path
      ("ReturnStatement/ParenthesizedExpression/JsxSelfClosingElement/Identifier".toList) then
    actReturnJsx st ("jsx-self-return".toList)
  else if endsWith path
      ("ReturnStatement/ParenthesizedExpression/JsxFragment/JsxOpeningFragment".toList) then
    actReturnJsx st ("jsx-open-return-fragment".toList)
  else if endsWith path ("ReturnStatement/JsxElement/JsxOpeningElement/Identifier".toList) then
    actReturnJsx st ("jsx-open-return".toList)
  else if endsWith path ("ReturnStatement/JsxSelfClosingElement/Identifier".toList) then
    actReturnJsx st ("jsx-self-return".toList)
  else if endsWith path ("ReturnStatement/JsxFragment/JsxOpeningFragment".toList) then
    actReturnJsx st ("jsx-open-return-fragment".toList)
  else if endsWith path ("ReturnStatement/JsxSelfClosingElement/Identifier".toList) then
    actReturnJsx st ("jsx-open-return".toList)
  else if endsWith path
      ("VariableDeclaration/ArrowFunction/ParenthesizedExpression/JsxElement/JsxOpeningElement".toList) then
    actArrowJsx st (-4) ("jsx-open-return".toList)
  else if endsWith path
      ("VariableDeclaration/ArrowFunction/ParenthesizedExpression/JsxElement/JsxSelfClosingElement".toList) then
    actArrowJsx st (-4) ("jsx-self-return".toList)
  else if endsWith path
      ("VariableDeclaration/ArrowFunction/ParenthesizedExpression/JsxFragment/JsxOpeningFragment".toList) then
    actArrowJsx st (-4) ("jsx-open-return-fragment".toList)
  else if endsWith path ("VariableDeclaration/ArrowFunction/JsxElement/JsxOpeningElement".toList) then
    actArrowJsx st (-3) ("jsx-open-return".toList)
  else if endsWith path
      ("VariableDeclaration/ArrowFunction/JsxElement/JsxSelfClosingElement".toList) then
    actArrowJsx st (-3) ("jsx-self-return".toList)
  else if endsWith path ("VariableDeclaration/ArrowFunction/JsxFragment/JsxOpeningFragment".toList) then
    actArrowJsx st (-3) ("jsx-open-return-fragment".toList)
  else if endsWith path ("VariableDeclaration/ArrowFunction/JsxOpeningElement".toList) then
    actArrowJsx st (-2) ("jsx-open-return".toList)
  else if endsWith path ("VariableDeclaration/ArrowFunction/JsxSelfClosingElement".toList) then
    actArrowJsx st (-2) ("jsx-self-return".toList)
  else if endsWith path ("VariableDeclaration/ArrowFunction/JsxOpeningFragment".toList) then
    actArrowJsx st (-2) ("jsx-open-return-fragment".toList)
  else if endsWith path ("JsxOpeningElement/Identifier".toList) then
    actJsxUsage st ("jsx-open".toList)
  else if endsWith path ("JsxOpeningElement/PropertyAccessExpression/Identifier".toList) then
    actJsxUsage st ("jsx-open-prop".toList)
  else if endsWith path ("JsxOpeningElement/PropertyAccessExpression/DotToken".toList) then
    actJsxUsage st ("jsx-dot-prop".toList)
  else if endsWith path ("JsxOpeningElement/PropertyAccessExpression/QuestionDotToken".toList) then
    actJsxUsage st ("jsx-question-dot-prop".toList)
  else if endsWith path ("JsxSelfClosingElement/Identifier".toList) then
    actJsxUsage st ("jsx-self".toList)
  else if endsWith path ("JsxSelfClosingElement/PropertyAccessExpression/Identifier".toList) then
    actJsxUsage st ("jsx-self-prop".toList)
  else if endsWith path ("JsxClosingElement/Identifier".toList) then
    actJsxUsage st ("jsx-close".toList)
  else if endsWith path ("JsxClosingElement/PropertyAccessExpression/Identifier".toList) then
    actJsxUsage st ("jsx-close-prop".toList)
  else if endsWith path ("JsxFragment/JsxClosingFragment".toList) then
    actJsxUsage st ("jsx-close-fragment".toList)
  else if endsWith path ("JsxOpeningElement/PropertyAccessExpression".toList) then
    actPropertyHead st ("jsx-open".toList)
  else if endsWith path ("JsxClosingElement/PropertyAccessExpression".toList) then
    actPropertyHead st ("jsx-close".toList)
  else if endsWith path ("PropertyAccessExpression".toList) then actPropertyHead st ("prop".toList)
  else if endsWith path ("PropertyAccessExpression/Identifier".toList) then actPropertyWord st
  else if endsWith path ("PropertyAccessExpression/DotToken".toList) then actPropertyWord st
  else if endsWith path ("PropertyAccessExpression/QuestionDotToken".toList) then actPropertyWord st
  else if endsWith path ("Parameter/Identifier".toList) then pushAttention st (topOf st) .parameter
  else if endsWith path ("ObjectBindingPattern/SyntaxList/BindingElement/Identifier".toList) then
    actObjBindParam st
  else if endsWith path ("ArrowFunction/OpenParenToken".toList) then actArrowPunct st ("open".toList)
  else if endsWith path ("ArrowFunction/CloseParenToken".toList) then actArrowPunct st ("close".toList)
  else if endsWith path ("CallExpression/OpenParenToken".toList) then actArrowPunct st ("open".toList)
  else if endsWith path ("CallExpression/CloseParenToken".toList) then actArrowPunct st ("close".toList)
  else if endsWith path ("ArrowFunction/EqualsGreaterThanToken".toList) then
    actArrowPunct st ("arrow".toList)
  else if endsWith path ("ArrowFunction/OpenParenToken/Block/OpenBraceToken".toList) then
    actArrowPunct st ("open".toList)
  else if endsWith path ("ArrowFunction/OpenParenToken/Block/CloseBraceToken".toList) then
    actArrowPunct st ("close".toList)
  else if arrowGapTest path ("Expression/OpenParenToken".toList) then actArrowPunct st ("open".toList)
  else if arrowGapTest path ("Expression/CloseParenToken".toList) then actArrowPunct st ("close".toList)
  else if endsWith path ("ObjectLiteralExpression/OpenBraceToken".toList) then
    actBraces st ("object-open".toList) .object
  else if endsWith path ("ObjectLiteralExpression/CloseBraceToken".toList) then
    actBraces st ("object-close".toList) .object
  else if endsWith path ("PropertyAssignment/Identifier".toList) then
    actBraces st ("object-prop".toList) .property
  else if endsWith path ("SyntaxList/ExportKeyword".toList) then actExport st (-3)
  else if endsWith path ("SyntaxList/ExportAssignment/ExportKeyword".toList) then actExport st (-2)
  else if endsWith path ("Block/OpenBraceToken".toList) then actBraces st ("open".toList) .block
  else if endsWith path ("Block/CloseBraceToken".toList) then actBraces st ("close".toList) .block
  else if endsWith path ("SingleLineCommentTrivia".toList) then
    pushAttention st (topOf st) .comment
  else if endsWith path ("MultiLineCommentTrivia".toList) then
    pushAttention st (topOf st) .comment
  else st

/-- `this.stack.match([...])` as called at the top of every loop iteration
(line 351): the rule table applied to the current ancestor path. -/
def applyRules (pe : PEnv) (st : PState) : PState :=
  applyRulesP pe st (astPath st.store st.stack)

end TSComp

namespace TSComp

mutual

/-- `Parser.traverse` (lines 335–795), fuel-indexed (one fuel unit per
frame entry and per loop iteration; the source recursion is bounded by the
input, and all theorems quantify over or instantiate ample fuel): push the
node onto the ancestor stack and enter the `while` loop. -/
def traverseF (pe : PEnv) : Nat → Nat → PState → PState
  | 0, _, st => st
  | fuel + 1, nodeId, st => tLoopF pe fuel nodeId { st with stack := st.stack ++ [nodeId] }

/-- One `while (!this.isEnd())` iteration of `Parser.traverse`
(lines 350–794) for current node `nodeId` (always the stack top):
* run the pattern table (`this.stack.match([...])`, line 351);
* `next = this.next()` (line 781);
* if `next.level < node.level` (line 782): truncate the stack to
  `next.level + 1` entries (`splice`), step the cursor back (`prev`), and
  `break` out of this frame;
* if `node.level < next.level` (line 787): recurse into the child, then
  read the following record (without re-checking its level — when the
  cursor is already past the end this reads `undefined`, which the loop
  condition then filters out before any use, as in the source);
* replace the stack top by `next` (`pop` + `push`) and continue. -/
def tLoopF (pe : PEnv) : Nat → Nat → PState → PState
  | 0, _, st => st
  | fuel + 1, nodeId, st =>
      if st.store.length ≤ st.ptr then st
      else
        let st1 := applyRules pe st
        let nextId := st1.ptr
        let st2 := { st1 with ptr := st1.ptr + 1 }
        let nlv := (getN st2.store nextId).level
        let clv := (getN st2.store nodeId).level
        if nlv < clv then
          { st2 with stack := st2.stack.take (nlv + 1), ptr := st2.ptr - 1 }
        else if clv < nlv then
          let st3 := traverseF pe fuel nextId st2
          let nextId2 := st3.ptr
          let st4 := { st3 with ptr := st3.ptr + 1 }
          tLoopF pe fuel nextId2 { st4 with stack := st4.stack.dropLast ++ [nextId2] }
        else
          tLoopF pe fuel nextId { st2 with stack := st2.stack.dropLast ++ [nextId] }

end

/-- Ample fuel for a complete walk of `n` records: every loop iteration and
every frame entry advances or retracts the cursor by at most one, and the
cursor strictly advances across iterations in the aggregate. -/
def ampleFuel (n : Nat) : Nat := (n + 2) * (n + 2)

/-- One per-file run of `main` (lines 830–856 of `src/ts-component.ts`) up
to the walk: `initAstNode` over the flattened records, `const topNode =
parser.next()`, `parser.traverse(topNode)`. -/
def runParser (pe : PEnv) (info : List AstIn) : PState :=
  let st0 : PState := ⟨initNodes info, [], [], 0⟩
  let topId := st0.ptr
  traverseF pe (ampleFuel info.length) topId { st0 with ptr := st0.ptr + 1 }

/-- `removeBlankLine` (line 851). -/
def removeBlankLine (n : NodeData) : Bool := n.text ≠ []

/-- The attention list handed to the emitters (lines 854–856):
`parser.attentions.filter(removeBlankLine).sort(sortWithIndex)` — the
comparator `a.index - b.index` sorts ascending on `index`;
`Array.prototype.sort` is stable, so `mergeSort` with `≤` models it. -/
def emitterAttentions (st : PState) : List NodeData :=
  ((st.attentions.map (getN st.store)).filter removeBlankLine).mergeSort
    (fun a b => a.index ≤ b.index)

end TSComp

namespace TSComp

/-- A parser context over an empty file system (no import rule resolves;
none of the inputs below contains an `ImportDeclaration`). -/
def peTest : PEnv := ⟨TSScan.emptyEnv, "test.tsx".toList, []⟩

/-- The flattened syntax tree (`scanAllChildren` applied to the TypeScript
parse of the source, TSX variant, `setParentNodes = true`) for

`export const Foo = () => <div />;`

in pre-order, with the depth reconstruction of `scanAllChildren`:
`SourceFile` at level 0, its `SyntaxList`/`EndOfFileToken` children at 1,
the `VariableStatement` with its modifier `SyntaxList` (holding the
`ExportKeyword`), `VariableDeclarationList` and `SemicolonToken`, the
`VariableDeclaration` with identifier and `ArrowFunction`, whose body is a
`JsxSelfClosingElement` (`LessThanToken`, tag `Identifier`, `JsxAttributes`
with its empty `SyntaxList`, `SlashToken`, `GreaterThanToken`).  Texts are
the nodes' `getText()` values; everything is on line 0. -/
def astArrowExport : List AstIn :=
  [⟨"SourceFile".toList, 0, 0, "export const Foo = () => <div />;".toList⟩,
   ⟨"SyntaxList".toList, 1, 0, "export const Foo = () => <div />;".toList⟩,
   ⟨"VariableStatement".toList, 2, 0, "export const Foo = () => <div />;".toList⟩,
   ⟨"SyntaxList".toList, 3, 0, "export".toList⟩,
   ⟨"ExportKeyword".toList, 4, 0, "export".toList⟩,
   ⟨"VariableDeclarationList".toList, 3, 0, "const Foo = () => <div />".toList⟩,
   ⟨"ConstKeyword".toList, 4, 0, "const".toList⟩,
   ⟨"SyntaxList".toList, 4, 0, "Foo = () => <div />".toList⟩,
   ⟨"VariableDeclaration".toList, 5, 0, "Foo = () => <div />".toList⟩,
   ⟨"Identifier".toList, 6, 0, "Foo".toList⟩,
   ⟨"EqualsToken".toList, 6, 0, "=".toList⟩,
   ⟨"ArrowFunction".toList, 6, 0, "() => <div />".toList⟩,
   ⟨"OpenParenToken".toList, 7, 0, "(".toList⟩,
   ⟨"SyntaxList".toList, 7, 0, []⟩,
   ⟨"CloseParenToken".toList, 7, 0, ")".toList⟩,
   ⟨"EqualsGreaterThanToken".toList, 7, 0, "=>".toList⟩,
   ⟨"JsxSelfClosingElement".toList, 7, 0, "<div />".toList⟩,
   ⟨"LessThanToken".toList, 8, 0, "<".toList⟩,
   ⟨"Identifier".toList, 8, 0, "div".toList⟩,
   ⟨"JsxAttributes".toList, 8, 0, []⟩,
   ⟨"SyntaxList".toList, 9, 0, []⟩,
   ⟨"SlashToken".toList, 8, 0, "/".toList⟩,
   ⟨"GreaterThanToken".toList, 8, 0, ">".toList⟩,
   ⟨"SemicolonToken".toList, 3, 0, ";".toList⟩,
   ⟨"EndOfFileToken".toList, 1, 0, []⟩]

/-- The flattened syntax tree for the statement `a.b.c();`: an
`ExpressionStatement` holding a `CallExpression` whose callee is the nested
`PropertyAccessExpression` chain `((a.b).c)`, followed by the parentheses
(with the empty argument `SyntaxList` between them). -/
def astDotCall : List AstIn :=
  [⟨"SourceFile".toList, 0, 0, "a.b.c();".toList⟩,
   ⟨"SyntaxList".toList, 1, 0, "a.b.c();".toList⟩,
   ⟨"ExpressionStatement".toList, 2, 0, "a.b.c();".toList⟩,
   ⟨"CallExpression".toList, 3, 0, "a.b.c()".toList⟩,
   ⟨"PropertyAccessExpression".toList, 4, 0, "a.b.c".toList⟩,
   ⟨"PropertyAccessExpression".toList, 5, 0, "a.b".toList⟩,
   ⟨"Identifier".toList, 6, 0, "a".toList⟩,
   ⟨"DotToken".toList, 6, 0, ".".toList⟩,
   ⟨"Identifier".toList, 6, 0, "b".toList⟩,
   ⟨"DotToken".toList, 5, 0, ".".toList⟩,
   ⟨"Identifier".toList, 5, 0, "c".toList⟩,
   ⟨"OpenParenToken".toList, 4, 0, "(".toList⟩,
   ⟨"SyntaxList".toList, 4, 0, []⟩,
   ⟨"CloseParenToken".toList, 4, 0, ")".toList⟩,
   ⟨"SemicolonToken".toList, 3, 0, ";".toList⟩,
   ⟨"EndOfFileToken".toList, 1, 0, []⟩]

/-- The flattened syntax tree for the statement `a[f()].b();`: the callee
of the outer `CallExpression` is `PropertyAccessExpression` over an
`ElementAccessExpression` whose bracketed argument is the inner call
`f()`. -/
def astElemCall : List AstIn :=
  [⟨"SourceFile".toList, 0, 0, "a[f()].b();".toList⟩,
   ⟨"SyntaxList".toList, 1, 0, "a[f()].b();".toList⟩,
   ⟨"ExpressionStatement".toList, 2, 0, "a[f()].b();".toList⟩,
   ⟨"CallExpression".toList, 3, 0, "a[f()].b()".toList⟩,
   ⟨"PropertyAccessExpression".toList, 4, 0, "a[f()].b".toList⟩,
   ⟨"ElementAccessExpression".toList, 5, 0, "a[f()]".toList⟩,
   ⟨"Identifier".toList, 6, 0, "a".toList⟩,
   ⟨"OpenBracketToken".toList, 6, 0, "[".toList⟩,
   ⟨"CallExpression".toList, 6, 0, "f()".toList⟩,
   ⟨"Identifier".toList, 7, 0, "f".toList⟩,
   ⟨"OpenParenToken".toList, 7, 0, "(".toList⟩,
   ⟨"SyntaxList".toList, 7, 0, []⟩,
   ⟨"CloseParenToken".toList, 7, 0, ")".toList⟩,
   ⟨"CloseBracketToken".toList, 6, 0, "]".toList⟩,
   ⟨"DotToken".toList, 5, 0, ".".toList⟩,
   ⟨"Identifier".toList, 5, 0, "b".toList⟩,
   ⟨"OpenParenToken".toList, 4, 0, "(".toList⟩,
   ⟨"SyntaxList".toList, 4, 0, []⟩,
   ⟨"CloseParenToken".toList, 4, 0, ")".toList⟩,
   ⟨"SemicolonToken".toList, 3, 0, ";".toList⟩,
   ⟨"EndOfFileToken".toList, 1, 0, []⟩]

end TSComp

namespace TSComp

/-- The per-claim projection of a walk result used by `C1`: the
`VariableDeclaration` record 8 (attention, identifier link), the `Foo`
identifier record 9 (attention, export flag), the attention list, and the
`div` tag record 18 (attention, note). -/
def c1View (st : PState) :
    AttentionKind × Option Nat × AttentionKind × Bool × List Nat × AttentionKind × List Char :=
  ((getN st.store 8).attention, (getN st.store 8).identifier, (getN st.store 9).attention,
    (getN st.store 9).synExport, st.attentions, (getN st.store 18).attention,
    (getN st.store 18).note)

set_option synthInstance.maxSize 1024 in
/-- **C1.**  For the source `export const Foo = () => <div />;`, after the
walk: the `VariableDeclaration` is reclassified `arrowVariable` with its
`identifier` link pointing at the `Foo` identifier node (record 9); `Foo`
itself is tagged `var`, carries `isExported = true`, and is in the
attention list (at its discovery position, among the arrow-function
punctuation); and the `div` tag node is tagged `component` with note
`jsx-self`. -/
theorem C1_arrow_export_walk :
    c1View (runParser peTest astArrowExport) =
      (.arrowVariable, some 9, .var, true, [9, 12, 14, 15, 18], .component,
        "jsx-self".toList) := by
  decide!

/-- **C2, counterexample.**  For `a.b.c();` the node tagged `call` does
*not* end the walk with text `a.b.c`: only the chain tokens that are
immediate children of the *outermost* `PropertyAccessExpression` reach the
call node (the paths of the deeper tokens end in
`…PropertyAccessExpression/PropertyAccessExpression/…`, which the
`CallExpression/PropertyAccessExpression/…$` patterns do not match), so the
call node's text ends up `.c`, not `a.b.c`. -/
theorem C2_counterexample_call_text :
    (getN (runParser peTest astDotCall).store 3).attention = .call ∧
      (getN (runParser peTest astDotCall).store 3).text ≠ "a.b.c".toList := by
  decide!

/-- The per-claim projection of a walk result used by `C2`: attention and
final text of the `CallExpression` record 3 and of the outermost callee
`PropertyAccessExpression` record 4. -/
def c2View (st : PState) : AttentionKind × List Char × AttentionKind × List Char :=
  ((getN st.store 3).attention, (getN st.store 3).text,
    (getN st.store 4).attention, (getN st.store 4).text)

set_option synthInstance.maxSize 1024 in
/-- **C2, amended.**  For `a.b.c();`, the call node (text first reset to
empty) ends the walk with reconstructed text exactly `.c`, while the dotted
prefix `a.b` accumulates on the outermost property-access node of the
callee, which is tagged `expression` (with its text also reset first). -/
theorem C2_amended_call_text :
    c2View (runParser peTest astDotCall) =
      (.call, ".c".toList, .expression, "a.b".toList) := by
  decide!

/-- **C3, counterexample.**  The emitted attention list is *not* in
ascending order of the original pre-order position (`pos0`): for
`a[f()].b();`, the outer call node (pre-order position 3, discovered first)
has its `index` reassigned during the walk to that of the last token `b` of
its callee chain, so it is emitted *after* the inner call `f()` and its
parentheses — the output order is neither original pre-order nor discovery
order. -/
theorem C3_counterexample_order :
    ¬ (emitterAttentions (runParser peTest astElemCall)).Pairwise
        (fun a b => a.pos0 ≤ b.pos0) := by
  decide!

/-- **C3, amended.**  For every input, the attention list handed to the
emitters is exactly the multiset of tagged nodes with non-empty
reconstructed text — sorted stably into ascending order of the `index`
field *as of the end of the walk* (for call nodes the walk reassigns
`index` to their last callee-chain token, so this can differ from the
original pre-order position), ties keeping discovery order. -/
theorem C3_amended_emitted_order (pe : PEnv) (info : List AstIn) :
    (emitterAttentions (runParser pe info)).Pairwise (fun a b => a.index ≤ b.index) ∧
      (emitterAttentions (runParser pe info)).Perm
        (((runParser pe info).attentions.map (getN (runParser pe info).store)).filter
          removeBlankLine) := by
  constructor
  · have h := @List.sorted_mergeSort NodeData
      (fun a b : NodeData => decide (a.index ≤ b.index))
      (fun a b c hab hbc => by
        simp only [decide_eq_true_eq] at *
        omega)
      (fun a b => by
        simp only [Bool.or_eq_true, decide_eq_true_eq]
        omega)
      (((runParser pe info).attentions.map (getN (runParser pe info).store)).filter
        removeBlankLine)
    exact h.imp (fun hab => by simpa using hab)
  · exact List.mergeSort_perm _ _

end TSComp

namespace TSComp

/-- A path that string-ends with `a` cannot also end with a pattern `b`
whose last character differs. -/
theorem endsWith_congr_last (p a b : List Char) (h : endsWith p a = true)
    (ha : a ≠ []) (hb : b ≠ []) (hne : b.getLast? ≠ a.getLast?) :
    endsWith p b = false := by
  cases hEW : endsWith p b with
  | false => rfl
  | true =>
      exfalso
      apply hne
      have hpa : a.reverse <+: p.reverse := by
        simpa [endsWith] using h
      have hpb : b.reverse <+: p.reverse := by
        simpa [endsWith] using hEW
      have h1 : p.reverse.head? = a.reverse.head? := by
        obtain ⟨t, ht⟩ := hpa
        rw [← ht]
        cases hc : a.reverse with
        | nil => exact absurd (by simpa using hc) ha
        | cons x xs => simp
      have h2 : p.reverse.head? = b.reverse.head? := by
        obtain ⟨t, ht⟩ := hpb
        rw [← ht]
        cases hc : b.reverse with
        | nil => exact absurd (by simpa using hc) hb
        | cons x xs => simp
      rw [← List.head?_reverse, ← List.head?_reverse, ← h1, ← h2]

/-- A path that string-ends with `a` cannot also end with `b` when neither
reversed pattern is a prefix of the other. -/
theorem endsWith_disjoint (p a b : List Char) (h : endsWith p a = true)
    (h1 : a.reverse.isPrefixOf b.reverse = false)
    (h2 : b.reverse.isPrefixOf a.reverse = false) : endsWith p b = false := by
  cases hEW : endsWith p b with
  | false => rfl
  | true =>
      exfalso
      have hpa : a.reverse <+: p.reverse := by simpa [endsWith] using h
      have hpb : b.reverse <+: p.reverse := by simpa [endsWith] using hEW
      rcases List.prefix_or_prefix_of_prefix hpa hpb with hab | hba
      · rw [← List.isPrefixOf_iff_prefix] at hab
        rw [h1] at hab
        cases hab
      · rw [← List.isPrefixOf_iff_prefix] at hba
        rw [h2] at hba
        cases hba

/-- When the ancestor path string-ends with one of the two export patterns
— and, as in every real walk, does not contain
`ClassDeclaration/Identifier` (an `Identifier` is a leaf, never an interior
stack entry, so the sole unanchored earlier rule cannot fire) — the rule
table fires exactly the export rule, with slice offset `-3` for the plain
`SyntaxList/ExportKeyword` form and `-2` for the
`SyntaxList/ExportAssignment/ExportKeyword` form: every anchored pattern
before the export rule ends in a character other than the patterns\' final
`d`, so none of them can match the same path. -/
theorem applyRulesP_export (pe : PEnv) (st : PState) (path T : List Char) (off : Int)
    (hcase : (T = "SyntaxList/ExportKeyword".toList ∧ off = -3) ∨
      (T = "SyntaxList/ExportAssignment/ExportKeyword".toList ∧ off = -2))
    (hT : endsWith path T = true)
    (hnc : containsStr path ("ClassDeclaration/Identifier".toList) = false) :
    applyRulesP pe st path = actExport st off := by
  have hTd : T.getLast? = some 'd' := by
    rcases hcase with ⟨rfl, _⟩ | ⟨rfl, _⟩ <;> decide
  have hTne : T ≠ [] := by
    intro hc
    rw [hc] at hTd
    cases hTd
  have R : ∀ b : List Char, b ≠ [] → b.getLast? ≠ some 'd' → endsWith path b = false := by
    intro b hb hbl
    refine endsWith_congr_last path T b hT hTne hb ?_
    rw [hTd]
    exact hbl
  have e0 : endsWith path ("ImportDeclaration".toList) = false := R ("ImportDeclaration".toList) (by decide) (by decide)
  have e1 : endsWith path ("ImportDeclaration/ImportClause/Identifier".toList) = false := R ("ImportDeclaration/ImportClause/Identifier".toList) (by decide) (by decide)
  have e2 : endsWith path ("ImportDeclaration/ImportClause/NamespaceImport/Identifier".toList) = false := R ("ImportDeclaration/ImportClause/NamespaceImport/Identifier".toList) (by decide) (by decide)
  have e3 : endsWith path ("ImportDeclaration/ImportClause/NamedImports/SyntaxList/ImportSpecifier/Identifier".toList) = false := R ("ImportDeclaration/ImportClause/NamedImports/SyntaxList/ImportSpecifier/Identifier".toList) (by decide) (by decide)
  have e4 : endsWith path ("ImportDeclaration/StringLiteral".toList) = false := R ("ImportDeclaration/StringLiteral".toList) (by decide) (by decide)
  have e5 : endsWith path ("VariableDeclaration/Identifier".toList) = false := R ("VariableDeclaration/Identifier".toList) (by decide) (by decide)
  have e6 : endsWith path ("FunctionDeclaration/Identifier".toList) = false := R ("FunctionDeclaration/Identifier".toList) (by decide) (by decide)
  have e7 : endsWith path ("CallExpression".toList) = false := R ("CallExpression".toList) (by decide) (by decide)
  have e8 : endsWith path ("CallExpression/PropertyAccessExpression/Identifier".toList) = false := R ("CallExpression/PropertyAccessExpression/Identifier".toList) (by decide) (by decide)
  have e9 : endsWith path ("CallExpression/PropertyAccessExpression/DotToken".toList) = false := R ("CallExpression/PropertyAccessExpression/DotToken".toList) (by decide) (by decide)
  have e10 : endsWith path ("CallExpression/PropertyAccessExpression/QuestionDotToken".toList) = false := R ("CallExpression/PropertyAccessExpression/QuestionDotToken".toList) (by decide) (by decide)
  have e11 : endsWith path ("CallExpression/Identifier".toList) = false := R ("CallExpression/Identifier".toList) (by decide) (by decide)
  have e12 : endsWith path ("ReturnStatement/ParenthesizedExpression/JsxElement/JsxOpeningElement/Identifier".toList) = false := R ("ReturnStatement/ParenthesizedExpression/JsxElement/JsxOpeningElement/Identifier".toList) (by decide) (by decide)
  have e13 : endsWith path ("ReturnStatement/ParenthesizedExpression/JsxSelfClosingElement/Identifier".toList) = false := R ("ReturnStatement/ParenthesizedExpression/JsxSelfClosingElement/Identifier".toList) (by decide) (by decide)
  have e14 : endsWith path ("ReturnStatement/ParenthesizedExpression/JsxFragment/JsxOpeningFragment".toList) = false := R ("ReturnStatement/ParenthesizedExpression/JsxFragment/JsxOpeningFragment".toList) (by decide) (by decide)
  have e15 : endsWith path ("ReturnStatement/JsxElement/JsxOpeningElement/Identifier".toList) = false := R ("ReturnStatement/JsxElement/JsxOpeningElement/Identifier".toList) (by decide) (by decide)
  have e16 : endsWith path ("ReturnStatement/JsxSelfClosingElement/Identifier".toList) = false := R ("ReturnStatement/JsxSelfClosingElement/Identifier".toList) (by decide) (by decide)
  have e17 : endsWith path ("ReturnStatement/JsxFragment/JsxOpeningFragment".toList) = false := R ("ReturnStatement/JsxFragment/JsxOpeningFragment".toList) (by decide) (by decide)
  have e18 : endsWith path ("VariableDeclaration/ArrowFunction/ParenthesizedExpression/JsxElement/JsxOpeningElement".toList) = false := R ("VariableDeclaration/ArrowFunction/ParenthesizedExpression/JsxElement/JsxOpeningElement".toList) (by decide) (by decide)
  have e19 : endsWith path ("VariableDeclaration/ArrowFunction/ParenthesizedExpression/JsxElement/JsxSelfClosingElement".toList) = false := R ("VariableDeclaration/ArrowFunction/ParenthesizedExpression/JsxElement/JsxSelfClosingElement".toList) (by decide) (by decide)
  have e20 : endsWith path ("VariableDeclaration/ArrowFunction/ParenthesizedExpression/JsxFragment/JsxOpeningFragment".toList) = false := R ("VariableDeclaration/ArrowFunction/ParenthesizedExpression/JsxFragment/JsxOpeningFragment".toList) (by decide) (by decide)
  have e21 : endsWith path ("VariableDeclaration/ArrowFunction/JsxElement/JsxOpeningElement".toList) = false := R ("VariableDeclaration/ArrowFunction/JsxElement/JsxOpeningElement".toList) (by decide) (by decide)
  have e22 : endsWith path ("VariableDeclaration/ArrowFunction/JsxElement/JsxSelfClosingElement".toList) = false := R ("VariableDeclaration/ArrowFunction/JsxElement/JsxSelfClosingElement".toList) (by decide) (by decide)
  have e23 : endsWith path ("VariableDeclaration/ArrowFunction/JsxFragment/JsxOpeningFragment".toList) = false := R ("VariableDeclaration/ArrowFunction/JsxFragment/JsxOpeningFragment".toList) (by decide) (by decide)
  have e24 : endsWith path ("VariableDeclaration/ArrowFunction/JsxOpeningElement".toList) = false := R ("VariableDeclaration/ArrowFunction/JsxOpeningElement".toList) (by decide) (by decide)
  have e25 : endsWith path ("VariableDeclaration/ArrowFunction/JsxSelfClosingElement".toList) = false := R ("VariableDeclaration/ArrowFunction/JsxSelfClosingElement".toList) (by decide) (by decide)
  have e26 : endsWith path ("VariableDeclaration/ArrowFunction/JsxOpeningFragment".toList) = false := R ("VariableDeclaration/ArrowFunction/JsxOpeningFragment".toList) (by decide) (by decide)
  have e27 : endsWith path ("JsxOpeningElement/Identifier".toList) = false := R ("JsxOpeningElement/Identifier".toList) (by decide) (by decide)
  have e28 : endsWith path ("JsxOpeningElement/PropertyAccessExpression/Identifier".toList) = false := R ("JsxOpeningElement/PropertyAccessExpression/Identifier".toList) (by decide) (by decide)
  have e29 : endsWith path ("JsxOpeningElement/PropertyAccessExpression/DotToken".toList) = false := R ("JsxOpeningElement/PropertyAccessExpression/DotToken".toList) (by decide) (by decide)
  have e30 : endsWith path ("JsxOpeningElement/PropertyAccessExpression/QuestionDotToken".toList) = false := R ("JsxOpeningElement/PropertyAccessExpression/QuestionDotToken".toList) (by decide) (by decide)
  have e31 : endsWith path ("JsxSelfClosingElement/Identifier".toList) = false := R ("JsxSelfClosingElement/Identifier".toList) (by decide) (by decide)
  have e32 : endsWith path ("JsxSelfClosingElement/PropertyAccessExpression/Identifier".toList) = false := R ("JsxSelfClosingElement/PropertyAccessExpression/Identifier".toList) (by decide) (by decide)
  have e33 : endsWith path ("JsxClosingElement/Identifier".toList) = false := R ("JsxClosingElement/Identifier".toList) (by decide) (by decide)
  have e34 : endsWith path ("JsxClosingElement/PropertyAccessExpression/Identifier".toList) = false := R ("JsxClosingElement/PropertyAccessExpression/Identifier".toList) (by decide) (by decide)
  have e35 : endsWith path ("JsxFragment/JsxClosingFragment".toList) = false := R ("JsxFragment/JsxClosingFragment".toList) (by decide) (by decide)
  have e36 : endsWith path ("JsxOpeningElement/PropertyAccessExpression".toList) = false := R ("JsxOpeningElement/PropertyAccessExpression".toList) (by decide) (by decide)
  have e37 : endsWith path ("JsxClosingElement/PropertyAccessExpression".toList) = false := R ("JsxClosingElement/PropertyAccessExpression".toList) (by decide) (by decide)
  have e38 : endsWith path ("PropertyAccessExpression".toList) = false := R ("PropertyAccessExpression".toList) (by decide) (by decide)
  have e39 : endsWith path ("PropertyAccessExpression/Identifier".toList) = false := R ("PropertyAccessExpression/Identifier".toList) (by decide) (by decide)
  have e40 : endsWith path ("PropertyAccessExpression/DotToken".toList) = false := R ("PropertyAccessExpression/DotToken".toList) (by decide) (by decide)
  have e41 : endsWith path ("PropertyAccessExpression/QuestionDotToken".toList) = false := R ("PropertyAccessExpression/QuestionDotToken".toList) (by decide) (by decide)
  have e42 : endsWith path ("Parameter/Identifier".toList) = false := R ("Parameter/Identifier".toList) (by decide) (by decide)
  have e43 : endsWith path ("ObjectBindingPattern/SyntaxList/BindingElement/Identifier".toList) = false := R ("ObjectBindingPattern/SyntaxList/BindingElement/Identifier".toList) (by decide) (by decide)
  have e44 : endsWith path ("ArrowFunction/OpenParenToken".toList) = false := R ("ArrowFunction/OpenParenToken".toList) (by decide) (by decide)
  have e45 : endsWith path ("ArrowFunction/CloseParenToken".toList) = false := R ("ArrowFunction/CloseParenToken".toList) (by decide) (by decide)
  have e46 : endsWith path ("CallExpression/OpenParenToken".toList) = false := R ("CallExpression/OpenParenToken".toList) (by decide) (by decide)
  have e47 : endsWith path ("CallExpression/CloseParenToken".toList) = false := R ("CallExpression/CloseParenToken".toList) (by decide) (by decide)
  have e48 : endsWith path ("ArrowFunction/EqualsGreaterThanToken".toList) = false := R ("ArrowFunction/EqualsGreaterThanToken".toList) (by decide) (by decide)
  have e49 : endsWith path ("ArrowFunction/OpenParenToken/Block/OpenBraceToken".toList) = false := R ("ArrowFunction/OpenParenToken/Block/OpenBraceToken".toList) (by decide) (by decide)
  have e50 : endsWith path ("ArrowFunction/OpenParenToken/Block/CloseBraceToken".toList) = false := R ("ArrowFunction/OpenParenToken/Block/CloseBraceToken".toList) (by decide) (by decide)
  have e51 : endsWith path ("Expression/OpenParenToken".toList) = false := R ("Expression/OpenParenToken".toList) (by decide) (by decide)
  have e52 : endsWith path ("Expression/CloseParenToken".toList) = false := R ("Expression/CloseParenToken".toList) (by decide) (by decide)
  have e53 : endsWith path ("ObjectLiteralExpression/OpenBraceToken".toList) = false := R ("ObjectLiteralExpression/OpenBraceToken".toList) (by decide) (by decide)
  have e54 : endsWith path ("ObjectLiteralExpression/CloseBraceToken".toList) = false := R ("ObjectLiteralExpression/CloseBraceToken".toList) (by decide) (by decide)
  have e55 : endsWith path ("PropertyAssignment/Identifier".toList) = false := R ("PropertyAssignment/Identifier".toList) (by decide) (by decide)
  unfold applyRulesP
  have g51 : arrowGapTest path ("Expression/OpenParenToken".toList) = false := by
    simp only [arrowGapTest, e51, Bool.false_and]
  have g52 : arrowGapTest path ("Expression/CloseParenToken".toList) = false := by
    simp only [arrowGapTest, e52, Bool.false_and]
  rcases hcase with ⟨rfl, rfl⟩ | ⟨rfl, rfl⟩
  · simp only [e0, e1, e2, e3, e4, e5, e6, e7, e8, e9, e10, e11, e12, e13, e14, e15, e16, e17, e18, e19, e20, e21, e22, e23, e24, e25, e26, e27, e28, e29, e30, e31, e32, e33, e34, e35, e36, e37, e38, e39, e40, e41, e42, e43, e44, e45, e46, e47, e48, e49, e50, e51, e52, e53, e54, e55, g51, g52, hnc, hT, Bool.false_eq_true, if_false, if_true]
  · have e57 : endsWith path ("SyntaxList/ExportKeyword".toList) = false :=
      endsWith_disjoint path ("SyntaxList/ExportAssignment/ExportKeyword".toList)
        ("SyntaxList/ExportKeyword".toList) hT (by decide) (by decide)
    simp only [e0, e1, e2, e3, e4, e5, e6, e7, e8, e9, e10, e11, e12, e13, e14, e15, e16, e17, e18, e19, e20, e21, e22, e23, e24, e25, e26, e27, e28, e29, e30, e31, e32, e33, e34, e35, e36, e37, e38, e39, e40, e41, e42, e43, e44, e45, e46, e47, e48, e49, e50, e51, e52, e53, e54, e55, e57, g51, g52, hnc, hT, Bool.false_eq_true, if_false, if_true]

end TSComp

namespace TSComp

theorem length_setN (s : List NodeData) (i : Nat) (f : NodeData → NodeData) :
    (setN s i f).length = s.length := List.length_set s i _

theorem getN_setN_self (s : List NodeData) (i : Nat) (f : NodeData → NodeData)
    (h : i < s.length) : getN (setN s i f) i = f (getN s i) := by
  simp [getN, setN, List.getD_eq_getElem?_getD, List.getElem?_set_self h]

theorem getN_setN_ne (s : List NodeData) (i j : Nat) (f : NodeData → NodeData)
    (h : i ≠ j) : getN (setN s i f) j = getN s j := by
  simp [getN, setN, List.getD_eq_getElem?_getD, List.getElem?_set_ne h]

theorem markIds_triv (st : PState) (ids : List Nat) :
    (markIds st ids).stack = st.stack ∧ (markIds st ids).store.length = st.store.length := by
  induction ids generalizing st with
  | nil => exact ⟨rfl, rfl⟩
  | cons a t ih =>
      have := ih (modN st a (fun n => { n with synExport := true }))
      simpa [markIds, List.foldl_cons, modN, length_setN] using this

theorem markIds_getN_not_mem (ids : List Nat) (st : PState) (id : Nat) (h : id ∉ ids) :
    getN (markIds st ids).store id = getN st.store id := by
  induction ids generalizing st with
  | nil => rfl
  | cons a t ih =>
      have hne : a ≠ id := fun hc => h (by simp [hc])
      have hnt : id ∉ t := fun hc => h (by simp [hc])
      calc getN (markIds st (a :: t)).store id
          = getN (modN st a (fun n => { n with synExport := true })).store id := ih _ hnt
        _ = getN st.store id :=
            getN_setN_ne st.store a id (fun n => { n with synExport := true }) hne

theorem markIds_synExport_mem (ids : List Nat) (st : PState) (id : Nat) (h : id ∈ ids)
    (hlt : id < st.store.length) : (getN (markIds st ids).store id).synExport = true := by
  induction ids generalizing st with
  | nil => cases h
  | cons a t ih =>
      by_cases hm : id ∈ t
      · exact ih _ hm (by simpa [modN, length_setN] using hlt)
      · have ha : id = a := by
          rcases List.mem_cons.1 h with h1 | h2
          · exact h1
          · exact absurd h2 hm
        subst ha
        have : getN (markIds (modN st id (fun n => { n with synExport := true })) t).store id =
            getN (modN st id (fun n => { n with synExport := true })).store id :=
          markIds_getN_not_mem t _ id hm
        rw [show markIds st (id :: t) =
            markIds (modN st id (fun n => { n with synExport := true })) t from rfl, this]
        rw [show (modN st id (fun n => { n with synExport := true })).store =
            setN st.store id (fun n => { n with synExport := true }) from rfl]
        rw [getN_setN_self _ _ _ hlt]

theorem synExport_after_top_mods (st : PState) (t id : Nat)
    (h : (getN st.store id).synExport = true) :
    (getN (modN (modN st t (fun n => { n with synExport := true })) t
      (fun n => { n with note := "export".toList })).store id).synExport = true := by
  by_cases he : t = id
  · subst he
    by_cases hb : t < st.store.length
    · rw [show (modN (modN st t (fun n => { n with synExport := true })) t
          (fun n => { n with note := "export".toList })).store =
          setN (setN st.store t (fun n => { n with synExport := true })) t
            (fun n => { n with note := "export".toList }) from rfl]
      rw [getN_setN_self _ _ _ (by simpa [length_setN] using hb)]
      rw [getN_setN_self _ _ _ hb]
    · have h1 : setN st.store t (fun n => { n with synExport := true }) = st.store :=
        List.set_eq_of_length_le (by omega)
      rw [show (modN (modN st t (fun n => { n with synExport := true })) t
          (fun n => { n with note := "export".toList })).store =
          setN (setN st.store t (fun n => { n with synExport := true })) t
            (fun n => { n with note := "export".toList }) from rfl, h1]
      have h2 : setN st.store t (fun n => { n with note := "export".toList }) = st.store :=
        List.set_eq_of_length_le (by omega)
      rw [h2]
      exact h
  · rw [show (modN (modN st t (fun n => { n with synExport := true })) t
        (fun n => { n with note := "export".toList })).store =
        setN (setN st.store t (fun n => { n with synExport := true })) t
          (fun n => { n with note := "export".toList }) from rfl]
    rw [getN_setN_ne _ _ _ _ he, getN_setN_ne _ _ _ _ he]
    exact h

theorem synExport_after_top_mods_ne (st : PState) (t id : Nat) (hne : t ≠ id) :
    getN (modN (modN st t (fun n => { n with synExport := true })) t
      (fun n => { n with note := "export".toList })).store id = getN st.store id := by
  rw [show (modN (modN st t (fun n => { n with synExport := true })) t
      (fun n => { n with note := "export".toList })).store =
      setN (setN st.store t (fun n => { n with synExport := true })) t
        (fun n => { n with note := "export".toList }) from rfl]
  rw [getN_setN_ne _ _ _ _ hne, getN_setN_ne _ _ _ _ hne]

end TSComp

namespace TSComp

/-- What the export rule's action does to the stack nodes' export flags:
with slice offset `-k` (`k = 3` or `2`), every stack node from position
`length - k` on (equivalently: positions `i` with `length ≤ i + k`) ends up
with `syntax.export = true`, and — for duplicate-free stacks — every stack
node strictly below keeps its flag. -/
theorem actExport_spec (st : PState) (k : Nat) (hk : 0 < k)
    (hnodup : st.stack.Nodup) (hvalid : ∀ id ∈ st.stack, id < st.store.length) :
    ∀ i, (hi : i < st.stack.length) →
      (st.stack.length ≤ i + k →
        (getN (actExport st (-(k : Int))).store (st.stack.get ⟨i, hi⟩)).synExport = true) ∧
      (i + k < st.stack.length →
        (getN (actExport st (-(k : Int))).store (st.stack.get ⟨i, hi⟩)).synExport =
          (getN st.store (st.stack.get ⟨i, hi⟩)).synExport) := by
  intro i hi
  have hdrop : (((st.stack.length : Int) + -(k : Int)).toNat) = st.stack.length - k := by omega
  have hact : actExport st (-(k : Int)) =
      modN (modN (markIds st (st.stack.drop (st.stack.length - k))) (topOf st)
          (fun n => { n with synExport := true })) (topOf st)
        (fun n => { n with note := "export".toList }) := by
    simp only [actExport, hdrop]
  have htop : topOf st = st.stack.get ⟨st.stack.length - 1, by omega⟩ := by
    rw [topOf, List.getLastD_eq_getLast?, List.getLast?_eq_getElem?,
      List.getElem?_eq_getElem (by omega)]
    simp
  constructor
  · intro hge
    have hjlt : i - (st.stack.length - k) < (st.stack.drop (st.stack.length - k)).length := by
      simp only [List.length_drop]
      omega
    have hmem : st.stack.get ⟨i, hi⟩ ∈ st.stack.drop (st.stack.length - k) := by
      have heq : (st.stack.drop (st.stack.length - k)).get ⟨i - (st.stack.length - k), hjlt⟩ =
          st.stack.get ⟨i, hi⟩ := by
        simp only [List.get_eq_getElem, List.getElem_drop]
        congr 1
        omega
      rw [← heq]
      exact List.get_mem _ _ _
    rw [hact]
    apply synExport_after_top_mods
    exact markIds_synExport_mem _ _ _ hmem (hvalid _ (List.get_mem _ _ _))
  · intro hlt
    have hne_top : topOf st ≠ st.stack.get ⟨i, hi⟩ := by
      rw [htop]
      intro hc
      have := (hnodup.get_inj_iff).1 hc
      have : st.stack.length - 1 = i := congrArg Fin.val this
      omega
    have hnotmem : st.stack.get ⟨i, hi⟩ ∉ st.stack.drop (st.stack.length - k) := by
      intro hmem
      have hnd : (st.stack.take (st.stack.length - k) ++
          st.stack.drop (st.stack.length - k)).Nodup := by
        rw [List.take_append_drop]
        exact hnodup
      have hdisj := List.disjoint_of_nodup_append hnd
      have hitake : i < (st.stack.take (st.stack.length - k)).length := by
        simp only [List.length_take]
        omega
      have hmemtake : st.stack.get ⟨i, hi⟩ ∈ st.stack.take (st.stack.length - k) := by
        have heq : (st.stack.take (st.stack.length - k)).get ⟨i, hitake⟩ =
            st.stack.get ⟨i, hi⟩ := by
          simp only [List.get_eq_getElem, List.getElem_take]
        rw [← heq]
        exact List.get_mem _ _ _
      exact hdisj hmemtake hmem
    rw [hact]
    rw [synExport_after_top_mods_ne _ _ _ hne_top]
    rw [markIds_getN_not_mem _ _ _ hnotmem]

/-- **C4.**  When the ancestor path ends in `SyntaxList/ExportKeyword`, the
matcher marks every node currently on the stack from offset `-3` onward as
exported; when it ends in `SyntaxList/ExportAssignment/ExportKeyword`, it
marks from offset `-2` onward; stack nodes below the respective offset keep
their export flag unchanged.  (The stack is duplicate-free with arena-valid
entries, as in every real walk, and the path does not contain
`ClassDeclaration/Identifier` — an `Identifier` is a leaf, never an
interior stack node — so the one unanchored earlier rule cannot pre-empt
the export rule.) -/
theorem C4_export_lookback_offsets (pe : PEnv) (st : PState)
    (hnodup : st.stack.Nodup)
    (hvalid : ∀ id ∈ st.stack, id < st.store.length)
    (hnc : containsStr (astPath st.store st.stack)
      ("ClassDeclaration/Identifier".toList) = false) :
    (endsWith (astPath st.store st.stack) ("SyntaxList/ExportKeyword".toList) = true →
      ∀ i, (hi : i < st.stack.length) →
        (st.stack.length ≤ i + 3 →
          (getN (applyRules pe st).store (st.stack.get ⟨i, hi⟩)).synExport = true) ∧
        (i + 3 < st.stack.length →
          (getN (applyRules pe st).store (st.stack.get ⟨i, hi⟩)).synExport =
            (getN st.store (st.stack.get ⟨i, hi⟩)).synExport)) ∧
    (endsWith (astPath st.store st.stack)
        ("SyntaxList/ExportAssignment/ExportKeyword".toList) = true →
      ∀ i, (hi : i < st.stack.length) →
        (st.stack.length ≤ i + 2 →
          (getN (applyRules pe st).store (st.stack.get ⟨i, hi⟩)).synExport = true) ∧
        (i + 2 < st.stack.length →
          (getN (applyRules pe st).store (st.stack.get ⟨i, hi⟩)).synExport =
            (getN st.store (st.stack.get ⟨i, hi⟩)).synExport)) := by
  constructor
  · intro hT i hi
    have hred : applyRules pe st = actExport st (-3) := by
      rw [applyRules]
      exact applyRulesP_export pe st _ _ (-3) (Or.inl ⟨rfl, rfl⟩) hT hnc
    rw [hred]
    exact actExport_spec st 3 (by omega) hnodup hvalid i hi
  · intro hT i hi
    have hred : applyRules pe st = actExport st (-2) := by
      rw [applyRules]
      exact applyRulesP_export pe st _ _ (-2) (Or.inr ⟨rfl, rfl⟩) hT hnc
    rw [hred]
    exact actExport_spec st 2 (by omega) hnodup hvalid i hi

/-- The concrete traversal state used to instantiate `C4`: the stack
`SourceFile / SyntaxList / VariableStatement / SyntaxList / ExportKeyword`
reached while walking `export const Foo = …` (records 0–4 of a fresh
arena). -/
def c4State : PState :=
  ⟨initNodes [⟨"SourceFile".toList, 0, 0, []⟩,
      ⟨"SyntaxList".toList, 1, 0, []⟩,
      ⟨"VariableStatement".toList, 2, 0, []⟩,
      ⟨"SyntaxList".toList, 3, 0, []⟩,
      ⟨"ExportKeyword".toList, 4, 0, "export".toList⟩],
    [0, 1, 2, 3, 4], [], 5⟩

/-- **C4, witness**: on the concrete export-keyword stack, the rule marks
stack positions 2–4 (`VariableStatement`, `SyntaxList`, `ExportKeyword`)
and leaves position 1 (the top-level `SyntaxList`) untouched. -/
theorem C4_witness :
    c4State.stack.Nodup ∧
      endsWith (astPath c4State.store c4State.stack)
        ("SyntaxList/ExportKeyword".toList) = true ∧
      (getN (applyRules peTest c4State).store (c4State.stack.get ⟨2, by decide⟩)).synExport
        = true ∧
      (getN (applyRules peTest c4State).store (c4State.stack.get ⟨1, by decide⟩)).synExport
        = (getN c4State.store (c4State.stack.get ⟨1, by decide⟩)).synExport := by
  refine ⟨by decide, by decide, ?_, ?_⟩
  · exact ((C4_export_lookback_offsets peTest c4State (by decide) (by decide)
      (by decide)).1 (by decide) 2 (by decide)).1 (by decide)
  · exact ((C4_export_lookback_offsets peTest c4State (by decide) (by decide)
      (by decide)).1 (by decide) 1 (by decide)).2 (by decide)

end TSComp
